import Mathlib

/-!
Verification of the route/distance-calculation core of the railway_be backend.

Shallow embedding of two services:

* src/src/graph_generator/service.py (GraphGeneratorService): adjacency-list
  export with the coded-station-name filter.
* src/src/distance_calculation/service.py (DistanceCalculationService):
  Dijkstra pathfinding between two stations and response assembly.

Modelling conventions:

* Database rows are lists of records; a SQLAlchemy query with a .where filter
  is modelled by List.filter on the input list.  The input list stands for the
  rows in the order the query returns them.
* Python dicts keyed by station id or name are modelled as insertion-ordered
  association lists; dict overwrite semantics is modelled by getLast? over all
  matching entries, dict.setdefault-style guarded inserts by an ensure step.
* Numeric columns: DECIMAL distance is modelled as a rational number, integer
  duration as an integer.  A nullable column is an Option.  Python float
  arithmetic is idealized as exact rational arithmetic.
* Python truthiness of a numeric value (if route.distance_km) is false for
  both NULL and 0; this is modelled explicitly in routeDistance/routeDuration.
* heapq is modelled by its contract: heappop removes a minimal element of the
  queue under Python tuple ordering, which is the lexicographic order on
  (distance, duration, node, path); list ordering of paths is the lexicographic
  order on lists of naturals, matching Python list comparison.
* An uncaught Python exception (a KeyError from a dict subscript) is modelled
  by the value none of an Option result; every normally returned response is
  some response.  The embedding itself is total.
* datetime.now timestamps in exporter metadata are outside the model and the
  metadata structure omits that field.
* The regular expression [NESW]\d+ or [A-Z]\d+ anchored at both ends is
  embedded over ASCII: Char.isUpper is the class A-Z and Char.isDigit is 0-9.
-/

/-- A stations row; only the columns the two services read. -/
structure Station where
  id : Nat
  name : String
deriving DecidableEq

/-- A route_segments row joined with its two station objects, as the graph
exporter reads it.  A missing relationship (NULL foreign key) is none. -/
structure RouteSegment where
  from_station : Option Station
  to_station : Option Station
  status : String
deriving DecidableEq

/-- An intersection_segments row joined with its two station objects. -/
structure IntersectionSegment where
  from_station : Option Station
  to_station : Option Station
  status : String
deriving DecidableEq

/-- A routes row joined with its line, as the distance calculator reads it:
nullable distance_km (DECIMAL) and duration_minutes (Integer), and the name
of the owning line when that relationship resolves. -/
structure Route where
  id : Nat
  line_id : Nat
  from_station_id : Nat
  to_station_id : Nat
  distance_km : Option ℚ
  duration_minutes : Option ℤ
  status : String
  line_name : Option String
deriving DecidableEq

/-- The database snapshot the distance calculator reads. -/
structure DB where
  stations : List Station
  routes : List Route

/-- GraphGeneratorService.is_real_station_name, the regex test: the name is
coded when it is one of [NESW] followed by one or more digits, or any single
uppercase letter followed by one or more digits (both alternatives anchored
at start and end). -/
def matchesCodedPattern (s : String) : Bool :=
  match s.data with
  | [] => false
  | c :: rest =>
    ((c = 'N' || c = 'E' || c = 'S' || c = 'W') || (c.isUpper)) &&
      (!rest.isEmpty && rest.all (fun d => d.isDigit))

/-- GraphGeneratorService.is_real_station_name: true when the coded pattern
does not match. -/
def is_real_station_name (s : String) : Bool :=
  !matchesCodedPattern s

/-- The exporter's adjacency structure: an insertion-ordered dict from a
station display name to its list of neighbor names. -/
abbrev NameGraph := List (String × List String)

/-- Dict lookup graph.get(k): the value of the entry with key k. -/
def ngFind (g : NameGraph) (k : String) : Option (List String) :=
  match g.find? (fun p => decide (p.1 = k)) with
  | some p => some p.2
  | none => none

/-- graph[k] where the key is known to exist; defaults to [] otherwise. -/
def ngAdj (g : NameGraph) (k : String) : List String :=
  (ngFind g k).getD []

/-- The test (k in graph). -/
def ngMem (g : NameGraph) (k : String) : Bool :=
  (ngFind g k).isSome

/-- if k not in graph: graph[k] = [] -/
def ngEnsure (g : NameGraph) (k : String) : NameGraph :=
  if ngMem g k then g else g ++ [(k, [])]

/-- graph[k].append(v) on the (unique) entry with key k. -/
def ngAppend (g : NameGraph) (k v : String) : NameGraph :=
  g.map (fun p => if p.1 = k then (p.1, p.2 ++ [v]) else p)

/-- if v not in graph[k]: graph[k].append(v) -/
def addConnEdge (g : NameGraph) (k v : String) : NameGraph :=
  if v ∈ ngAdj g k then g else ngAppend g k v

/-- The body shared by both exporter loops: ensure both keys, then append
each name to the other's list unless already present.  The two membership
tests run sequentially against the mutated dict, exactly as in the source. -/
def addConnection (g : NameGraph) (a b : String) : NameGraph :=
  addConnEdge (addConnEdge (ngEnsure (ngEnsure g a) b) a b) b a

/-- One loop iteration of the exporter folds: skip the row unless both
station relationships resolve and both names pass the real-name filter. -/
def foldSegment (g : NameGraph) (fromSt toSt : Option Station) : NameGraph :=
  match fromSt, toSt with
  | some fs, some ts =>
    if is_real_station_name fs.name && is_real_station_name ts.name then
      addConnection g fs.name ts.name
    else g
  | _, _ => g

/-- GraphGeneratorService.build_graph_from_route_segments: fold the active
route segments (in query order) into an empty adjacency dict. -/
def build_graph_from_route_segments (segs : List RouteSegment) : NameGraph :=
  (segs.filter (fun s => decide (s.status = "active"))).foldl
    (fun g seg => foldSegment g seg.from_station seg.to_station) []

/-- GraphGeneratorService.add_intersection_segments_to_graph: fold the active
intersection segments into an existing adjacency dict. -/
def add_intersection_segments_to_graph (isegs : List IntersectionSegment)
    (g : NameGraph) : NameGraph :=
  (isegs.filter (fun s => decide (s.status = "active"))).foldl
    (fun g seg => foldSegment g seg.from_station seg.to_station) g

/-- Python list.sort() on strings: a stable ascending sort under code-point
lexicographic order, which is the order on the underlying character lists. -/
def pySortStrings (l : List String) : List String :=
  List.insertionSort (fun a b => a.data ≤ b.data) l

/-- graph[node].sort() applied to every node. -/
def sortGraphValues (g : NameGraph) : NameGraph :=
  g.map (fun p => (p.1, pySortStrings p.2))

/-- Sum of the lengths of all neighbor lists. -/
def sumConnections (g : NameGraph) : Nat :=
  (g.map (fun p => p.2.length)).sum

/-- The metadata block of GraphGeneratorService.generate_metadata; the
generated_at wall-clock field is outside the model.  The active line names
and the active intersection-point count are read from the database and enter
as parameters. -/
structure GraphMetadata where
  total_nodes : Nat
  total_connections : Nat
  lines_included : List String
  intersection_points_count : Nat
deriving DecidableEq

/-- GraphGeneratorService.generate_metadata. -/
def generate_metadata (g : NameGraph) (lines : List String)
    (ipCount : Nat) : GraphMetadata :=
  { total_nodes := g.length
    total_connections := sumConnections g / 2
    lines_included := lines
    intersection_points_count := ipCount }

/-- GraphGeneratorService.generate_complete_graph: route segments, then
intersection segments, then metadata (computed before sorting, as in the
source), then per-node sorting. -/
def generate_complete_graph (segs : List RouteSegment)
    (isegs : List IntersectionSegment) (lines : List String)
    (ipCount : Nat) : NameGraph × GraphMetadata :=
  let g := add_intersection_segments_to_graph isegs
    (build_graph_from_route_segments segs)
  let md := generate_metadata g lines ipCount
  (sortGraphValues g, md)

/-- The single-line metadata block of GraphGeneratorService.get_graph_by_line_id
(generated_at omitted as above). -/
structure LineGraphMetadata where
  total_nodes : Nat
  total_connections : Nat
  line_name : Option String
deriving DecidableEq

/-- GraphGeneratorService.get_graph_by_line_id: the same fold over the active
segments of one line (the join on the line id is modelled by the caller
passing that line's segment rows), then sorting, then metadata. -/
def get_graph_by_line_id (lineSegs : List RouteSegment)
    (lineName : Option String) : NameGraph × LineGraphMetadata :=
  let g := sortGraphValues (build_graph_from_route_segments lineSegs)
  (g, { total_nodes := g.length
        total_connections := sumConnections g / 2
        line_name := lineName })

/-- DistanceCalculationService: distance weight of a route edge.  The source
tests Python truthiness (if route.distance_km), so both NULL and a stored 0
fall back to the placeholder 1.0. -/
def routeDistance (r : Route) : ℚ :=
  match r.distance_km with
  | none => 1
  | some d => if d = 0 then 1 else d

/-- Duration weight of a route edge; NULL and 0 both fall back to 10. -/
def routeDuration (r : Route) : ℤ :=
  match r.duration_minutes with
  | none => 10
  | some t => if t = 0 then 10 else t

/-- One adjacency record (neighbor, distance, duration). -/
abbrev Adj := Nat × ℚ × ℤ

/-- The pathfinding adjacency dict: station id to adjacency records, as an
insertion-ordered association list with unique keys. -/
abbrev Graph := List (Nat × List Adj)

/-- The route_info dict from a directed station pair to the route row that
produced it; later writes shadow earlier ones. -/
abbrev RouteInfo := List ((Nat × Nat) × Route)

/-- Dict lookup of a station id in the adjacency dict. -/
def graphFind (g : Graph) (k : Nat) : Option (List Adj) :=
  match g.find? (fun p => decide (p.1 = k)) with
  | some p => some p.2
  | none => none

/-- The test (k in graph). -/
def graphMem (g : Graph) (k : Nat) : Bool :=
  (graphFind g k).isSome

/-- if k not in graph: graph[k] = [] -/
def graphEnsure (g : Graph) (k : Nat) : Graph :=
  if graphMem g k then g else g ++ [(k, [])]

/-- graph[k].append(a) on the entry with key k. -/
def graphAppendAdj (g : Graph) (k : Nat) (a : Adj) : Graph :=
  g.map (fun p => if p.1 = k then (p.1, p.2 ++ [a]) else p)

/-- One iteration of the graph-building loop of calculate_distance_and_time:
ensure both endpoint keys, append the edge in both directions with identical
weights, and record the route for both directed pairs. -/
def addRoute (acc : Graph × RouteInfo) (r : Route) : Graph × RouteInfo :=
  let g0 := graphEnsure (graphEnsure acc.1 r.from_station_id) r.to_station_id
  let d := routeDistance r
  let t := routeDuration r
  let g1 := graphAppendAdj g0 r.from_station_id (r.to_station_id, d, t)
  let g2 := graphAppendAdj g1 r.to_station_id (r.from_station_id, d, t)
  (g2, acc.2 ++ [((r.from_station_id, r.to_station_id), r),
                 ((r.to_station_id, r.from_station_id), r)])

/-- The adjacency graph and route_info dict built from the active routes. -/
def buildGraph (routes : List Route) : Graph × RouteInfo :=
  routes.foldl addRoute ([], [])

/-- A priority-queue entry (cumulative distance, cumulative duration,
current node, path so far), exactly the tuple the source pushes on the heap. -/
abbrev Entry := ℚ × ℤ × Nat × List Nat

/-- The Python tuple ordering on entries: the lexicographic order on all four
components in order. -/
def entryKey (e : Entry) : ℚ ×ₗ (ℤ ×ₗ (ℕ ×ₗ List ℕ)) :=
  toLex (e.1, toLex (e.2.1, toLex (e.2.2.1, e.2.2.2)))

/-- Strict comparison of two heap entries under Python tuple ordering. -/
def entryLt (x y : Entry) : Prop :=
  entryKey x < entryKey y

instance (x y : Entry) : Decidable (entryLt x y) := by
  unfold entryLt; infer_instance

/-- The heapq contract: heappop returns a minimal element of the heap.  On a
list this is the leftmost minimal element; entries that compare equal are
identical tuples, so the choice among them is immaterial. -/
def findMin : List Entry → Option Entry
  | [] => none
  | e :: es =>
    match findMin es with
    | none => some e
    | some m => if entryLt m e then some m else some e

/-- The while-loop of DistanceCalculationService._find_shortest_path.  Each
iteration pops a minimal entry; a visited node is skipped; otherwise the node
is marked visited, the destination returns its path, and each not-yet-visited
neighbor is pushed with accumulated distance and duration.  The fuel argument
dominates the loop's termination measure, so with the fuel find_shortest_path
supplies the loop always terminates through the queue, never through fuel. -/
def dijkstraLoop (g : Graph) (endId : Nat) :
    Nat → List Entry → List Nat → Option (List Nat)
  | 0, _, _ => none
  | fuel + 1, pq, visited =>
    match findMin pq with
    | none => none
    | some e =>
      let pq1 := pq.erase e
      if e.2.2.1 ∈ visited then dijkstraLoop g endId fuel pq1 visited
      else
        let visited1 := visited ++ [e.2.2.1]
        if e.2.2.1 = endId then some e.2.2.2
        else
          match graphFind g e.2.2.1 with
          | none => dijkstraLoop g endId fuel pq1 visited1
          | some adj =>
            let pushes := (adj.filter (fun a => decide (a.1 ∉ visited1))).map
              (fun a => (e.1 + a.2.1, e.2.1 + a.2.2, a.1, e.2.2.2 ++ [a.1]))
            dijkstraLoop g endId fuel (pq1 ++ pushes) visited1

/-- The key list of the adjacency dict. -/
def graphKeys (g : Graph) : List Nat :=
  g.map (fun p => p.1)

/-- Total number of adjacency records over all keys. -/
def graphEdgeCount (g : Graph) : Nat :=
  (g.map (fun p => p.2.length)).sum

/-- Termination measure of the loop: queue length plus, for every unvisited
key, one more than the total adjacency count (a bound on the pushes a single
visit can perform). -/
def dMeasure (g : Graph) (pq : List Entry) (visited : List Nat) : Nat :=
  pq.length +
    ((graphKeys g).filter (fun k => decide (k ∉ visited))).length *
      (graphEdgeCount g + 1)

/-- DistanceCalculationService._find_shortest_path: None when either endpoint
is not a key of the adjacency dict, otherwise the loop from the start entry
(0, 0, start, [start]) with an empty visited set. -/
def find_shortest_path (g : Graph) (startId endId : Nat) : Option (List Nat) :=
  if graphMem g startId && graphMem g endId then
    dijkstraLoop g endId (dMeasure g [(0, 0, startId, [startId])] [])
      [(0, 0, startId, [startId])] []
  else none

/-- One directed edge of the adjacency dict, with its weight. -/
def isStep (g : Graph) (a b : Nat) (w : ℚ) : Prop :=
  ∃ adj t, graphFind g a = some adj ∧ (b, w, t) ∈ adj

/-- A full adjacency record of the dict, with weight and duration. -/
def isArc (g : Graph) (a : Nat) (rec : Adj) : Prop :=
  ∃ adj, graphFind g a = some adj ∧ rec ∈ adj

/-- Walk g s p b c: p is a walk in the adjacency dict from s to b whose chosen
edge weights sum to c.  Walks grow at the tail, matching how the loop extends
paths. -/
inductive Walk (g : Graph) (s : Nat) : List Nat → Nat → ℚ → Prop
  | nil : Walk g s [s] s 0
  | snoc {p : List Nat} {b c : Nat} {w cost : ℚ} :
      Walk g s p b cost → isStep g b c w → Walk g s (p ++ [c]) c (cost + w)

/-- All edge weights of the adjacency dict are nonnegative. -/
def NonnegG (g : Graph) : Prop :=
  ∀ a b w, isStep g a b w → 0 ≤ w

/-- Every neighbor mentioned in an adjacency list is itself a key; true of
every graph buildGraph produces. -/
def WFGraph (g : Graph) : Prop :=
  ∀ k adj, graphFind g k = some adj → ∀ a ∈ adj, graphMem g a.1 = true

/-- The Pydantic RouteSegmentInfo schema. -/
structure RouteSegmentInfo where
  from_station_id : Nat
  to_station_id : Nat
  from_station_name : String
  to_station_name : String
  line_name : String
  distance_km : ℚ
  duration_minutes : ℤ
deriving DecidableEq

/-- The Pydantic DistanceCalculationResponse schema. -/
structure DistanceCalculationResponse where
  from_station_id : Nat
  to_station_id : Nat
  from_station_name : String
  to_station_name : String
  total_distance_km : ℚ
  total_duration_minutes : ℤ
  route_segments : List RouteSegmentInfo
  success : Bool
  message : String
deriving DecidableEq

/-- Resolution of a station id against the stations table; the dict built
from the query keeps the last row for a repeated id. -/
def lookupStation (db : DB) (sid : Nat) : Option Station :=
  (db.stations.filter (fun s => decide (s.id = sid))).getLast?

/-- The stations dict of calculate_distance_and_time: it only contains rows
whose id is one of the two requested endpoints, because the query filters on
Station.id.in_([from_station_id, to_station_id]). -/
def stationsDict (db : DB) (fromId toId : Nat) (i : Nat) : Option Station :=
  if i = fromId ∨ i = toId then lookupStation db i else none

/-- The routes the calculator loads: rows with status active. -/
def activeRoutes (db : DB) : List Route :=
  db.routes.filter (fun r => decide (r.status = "active"))

/-- route_info.get((a, b)): the last route recorded for the directed pair. -/
def riFind (ri : RouteInfo) (k : Nat × Nat) : Option Route :=
  ((ri.filter (fun p => decide (p.1 = k))).getLast?).map (fun p => p.2)

/-- Consecutive pairs of the path, the loop index range len(path) - 1. -/
def pathPairs : List Nat → List (Nat × Nat)
  | a :: b :: rest => (a, b) :: pathPairs (b :: rest)
  | _ => []

/-- The segment-assembly loop.  A pair without a route_info entry is silently
skipped (if route:), as in the source.  A station id outside the two-endpoint
stations dict raises KeyError, modelled as none for the whole computation. -/
def segsBuild (smap : Nat → Option Station) (ri : RouteInfo) :
    List (Nat × Nat) → Option (List RouteSegmentInfo)
  | [] => some []
  | (a, b) :: rest =>
    match riFind ri (a, b) with
    | none => segsBuild smap ri rest
    | some r =>
      match smap a, smap b with
      | some sa, some sb =>
        (segsBuild smap ri rest).map (fun l =>
          { from_station_id := a
            to_station_id := b
            from_station_name := sa.name
            to_station_name := sb.name
            line_name := r.line_name.getD "Unknown Line"
            distance_km := routeDistance r
            duration_minutes := routeDuration r } :: l)
      | _, _ => none

/-- Python round(x, 2): round half to even at the second decimal place. -/
def round2 (x : ℚ) : ℚ :=
  let y := 100 * x
  let n := ⌊y⌋
  let r := y - (n : ℚ)
  ((if r < 1/2 then n else if 1/2 < r then n + 1
    else if Even n then n else n + 1 : ℤ) : ℚ) / 100

/-- Message of the From-station-missing failure. -/
def fromNotFoundMsg (fromId : Nat) : String :=
  "From station with ID " ++ toString fromId ++ " not found"

/-- Message of the To-station-missing failure. -/
def toNotFoundMsg (toId : Nat) : String :=
  "To station with ID " ++ toString toId ++ " not found"

/-- Message of the same-station success. -/
def sameStationMsg : String := "Same station selected"

/-- Message of the empty-edge-set failure. -/
def noRoutesMsg : String := "No active routes found in the system"

/-- Message of the no-path failure. -/
def noPathMsg : String := "No route found between the selected stations"

/-- Message of a successful route result. -/
def routeFoundMsg (n : Nat) : String :=
  "Route found with " ++ toString n ++ " segments"

/-- A response with no segments and zero totals, as every non-assembled
branch of the source constructs it. -/
def mkSimpleResponse (fromId toId : Nat) (fromName toName : String)
    (ok : Bool) (msg : String) : DistanceCalculationResponse :=
  { from_station_id := fromId
    to_station_id := toId
    from_station_name := fromName
    to_station_name := toName
    total_distance_km := 0
    total_duration_minutes := 0
    route_segments := []
    success := ok
    message := msg }

/-- DistanceCalculationService.calculate_distance_and_time.  The branch
structure follows the source: endpoint resolution, the same-station early
return, the empty-active-route-set failure, graph construction, Dijkstra,
the falsy-path failure, and segment assembly.  The overall none result is
the uncaught KeyError of the assembly loop; every other branch returns a
typed response. -/
def calculate_distance_and_time (db : DB) (fromId toId : Nat) :
    Option DistanceCalculationResponse :=
  match lookupStation db fromId with
  | none =>
    some (mkSimpleResponse fromId toId "Unknown"
      (match lookupStation db toId with
       | some st => st.name
       | none => "Unknown")
      false (fromNotFoundMsg fromId))
  | some sf =>
    match lookupStation db toId with
    | none =>
      some (mkSimpleResponse fromId toId sf.name "Unknown" false
        (toNotFoundMsg toId))
    | some st =>
      if fromId = toId then
        some (mkSimpleResponse fromId toId sf.name st.name true sameStationMsg)
      else
        let routes := activeRoutes db
        if routes.isEmpty then
          some (mkSimpleResponse fromId toId sf.name st.name false noRoutesMsg)
        else
          let gri := buildGraph routes
          match find_shortest_path gri.1 fromId toId with
          | none =>
            some (mkSimpleResponse fromId toId sf.name st.name false noPathMsg)
          | some p =>
            if p.isEmpty then
              some (mkSimpleResponse fromId toId sf.name st.name false noPathMsg)
            else
              match segsBuild (stationsDict db fromId toId) gri.2
                  (pathPairs p) with
              | none => none
              | some segs =>
                some
                  { from_station_id := fromId
                    to_station_id := toId
                    from_station_name := sf.name
                    to_station_name := st.name
                    total_distance_km :=
                      round2 (segs.map (fun s => s.distance_km)).sum
                    total_duration_minutes :=
                      (segs.map (fun s => s.duration_minutes)).sum
                    route_segments := segs
                    success := true
                    message := routeFoundMsg segs.length }

/-- Invariant: every queue entry carries a walk from the start to its node
with the entry's cumulative distance, and every node of its path except the
last is already visited. -/
def EntriesOK (g : Graph) (s : Nat) (pq : List Entry)
    (visited : List Nat) : Prop :=
  ∀ e ∈ pq, Walk g s e.2.2.2 e.2.2.1 e.1 ∧
    ∀ v ∈ e.2.2.2.dropLast, v ∈ visited

/-- Invariant: for every walk whose endpoint is unvisited but whose interior
is fully visited, the queue holds an entry for that endpoint at a cumulative
distance no larger than the walk's cost. -/
def FrontierOK (g : Graph) (s : Nat) (pq : List Entry)
    (visited : List Nat) : Prop :=
  ∀ q z c, Walk g s q z c → z ∉ visited → (∀ v ∈ q.dropLast, v ∈ visited) →
    ∃ e ∈ pq, e.2.2.1 = z ∧ e.1 ≤ c

/-- Invariant: every visited node carries an optimal-cost walk from the start
that stays inside the visited set. -/
def VisitedOK (g : Graph) (s : Nat) (visited : List Nat) : Prop :=
  ∀ v ∈ visited, ∃ p c, Walk g s p v c ∧ (∀ x ∈ p, x ∈ visited) ∧
    ∀ q c2, Walk g s q v c2 → c ≤ c2

/-- Invariant for completeness: every edge out of a visited node leads to a
visited node or to the node of some queue entry. -/
def ClosureOK (g : Graph) (pq : List Entry) (visited : List Nat) : Prop :=
  ∀ a b w, a ∈ visited → isStep g a b w →
    b ∈ visited ∨ ∃ e ∈ pq, e.2.2.1 = b

/-- A name occurs as a neighbor value somewhere in the exported graph. -/
def ngHasValue (g : NameGraph) (v : String) : Prop :=
  ∃ p ∈ g, v ∈ p.2

/-- The exporter symmetry invariant: a neighbor entry forces both names to be
keys and the mirrored neighbor entry to exist. -/
def SymGraph (g : NameGraph) : Prop :=
  ∀ a b, b ∈ ngAdj g a →
    ngMem g a = true ∧ ngMem g b = true ∧ a ∈ ngAdj g b

/-- Keys of the exported graph are pairwise distinct and every neighbor list
is duplicate-free. -/
def NodupGraph (g : NameGraph) : Prop :=
  (g.map (fun p => p.1)).Nodup ∧ ∀ p ∈ g, p.2.Nodup

/-- The number of unordered adjacent pairs, counting for each key the
neighbors strictly greater than it in code-point lexicographic order. -/
def unorderedPairCount (g : NameGraph) : Nat :=
  (g.map (fun p => (p.2.filter (fun v => decide (p.1.data < v.data))).length)).sum

/-- Fixture: the spec scenario stations {1: Mo Chit, 2: Siam, 3: Asok} with
active edges (1,2, d=5, t=10) and (2,3, d=3, t=6). -/
def dbScenario : DB where
  stations := [⟨1, "Mo Chit"⟩, ⟨2, "Siam"⟩, ⟨3, "Asok"⟩]
  routes :=
    [⟨1, 1, 1, 2, some 5, some 10, "active", some "Sukhumvit"⟩,
     ⟨2, 1, 2, 3, some 3, some 6, "active", some "Sukhumvit"⟩]

/-- Fixture: the triangle scenario, stations A=1, B=2, C=3 with active edges
A-B distance 5, B-C distance 5, A-C distance 20. -/
def dbTriangle : DB where
  stations := [⟨1, "A"⟩, ⟨2, "B"⟩, ⟨3, "C"⟩]
  routes :=
    [⟨1, 1, 1, 2, some 5, some 10, "active", some "L"⟩,
     ⟨2, 1, 2, 3, some 5, some 10, "active", some "L"⟩,
     ⟨3, 1, 1, 3, some 20, some 10, "active", some "L"⟩]

/-- Fixture: a diamond graph with two equal-distance routes from 1 to 4 whose
durations differ: through 2 cheap in duration, through 3 expensive. -/
def diamondA : Graph :=
  [(1, [(2, 1, 1), (3, 1, 5)]), (2, [(1, 1, 1), (4, 1, 1)]),
   (3, [(1, 1, 5), (4, 1, 5)]), (4, [(2, 1, 1), (3, 1, 5)])]

/-- The same diamond with the two durations swapped; distances unchanged. -/
def diamondB : Graph :=
  [(1, [(2, 1, 5), (3, 1, 1)]), (2, [(1, 1, 5), (4, 1, 5)]),
   (3, [(1, 1, 1), (4, 1, 1)]), (4, [(2, 1, 5), (3, 1, 1)])]

/-- Fixture: one active route segment joining the station named BL12 to the
station named Siam. -/
def segBL12 : RouteSegment where
  from_station := some ⟨1, "BL12"⟩
  to_station := some ⟨2, "Siam"⟩
  status := "active"

/-- Fixture: one active route segment joining two distinct stations that
share the display name Siam, as interchange stations do by design. -/
def segSiamSiam : RouteSegment where
  from_station := some ⟨1, "Siam"⟩
  to_station := some ⟨2, "Siam"⟩
  status := "active"

/-- Fixture: one station and no routes at all, for the same-station query. -/
def dbLone : DB where
  stations := [⟨7, "Bang Wa"⟩]
  routes := []

/-- Fixture: a single directed stored edge 1 -> 2. -/
def rPair : Route := ⟨1, 1, 1, 2, some 7, some 4, "active", some "Gold"⟩

/-- Fixture: two stations joined only by the single directed edge rPair. -/
def dbPair : DB where
  stations := [⟨1, "Alpha"⟩, ⟨2, "Beta"⟩]
  routes := [rPair]

/-- The adjacency dict calculate_distance_and_time builds from the scenario
routes of dbScenario. -/
def gScen : Graph :=
  [(1, [(2, 5, 10)]), (2, [(1, 5, 10), (3, 3, 6)]), (3, [(2, 3, 6)])]

/-- The route_info dict built from the scenario routes of dbScenario. -/
def riScen : RouteInfo :=
  [((1, 2), ⟨1, 1, 1, 2, some 5, some 10, "active", some "Sukhumvit"⟩),
   ((2, 1), ⟨1, 1, 1, 2, some 5, some 10, "active", some "Sukhumvit"⟩),
   ((2, 3), ⟨2, 1, 2, 3, some 3, some 6, "active", some "Sukhumvit"⟩),
   ((3, 2), ⟨2, 1, 2, 3, some 3, some 6, "active", some "Sukhumvit"⟩)]

/-- The adjacency dict built from the triangle routes of dbTriangle. -/
def gTri : Graph :=
  [(1, [(2, 5, 10), (3, 20, 10)]), (2, [(1, 5, 10), (3, 5, 10)]),
   (3, [(2, 5, 10), (1, 20, 10)])]

/-- The route_info dict built from the triangle routes of dbTriangle. -/
def riTri : RouteInfo :=
  [((1, 2), ⟨1, 1, 1, 2, some 5, some 10, "active", some "L"⟩),
   ((2, 1), ⟨1, 1, 1, 2, some 5, some 10, "active", some "L"⟩),
   ((2, 3), ⟨2, 1, 2, 3, some 5, some 10, "active", some "L"⟩),
   ((3, 2), ⟨2, 1, 2, 3, some 5, some 10, "active", some "L"⟩),
   ((1, 3), ⟨3, 1, 1, 3, some 20, some 10, "active", some "L"⟩),
   ((3, 1), ⟨3, 1, 1, 3, some 20, some 10, "active", some "L"⟩)]

lemma entryLt_irrefl (x : Entry) : ¬ entryLt x x :=
  lt_irrefl _

lemma findMin_none_iff {pq : List Entry} : findMin pq = none ↔ pq = [] := by
  cases pq with
  | nil => simp [findMin]
  | cons e es =>
    simp only [findMin]
    cases h : findMin es
    · simp
    · simp only [h]
      split <;> simp

lemma findMin_mem {pq : List Entry} {e : Entry} (h : findMin pq = some e) :
    e ∈ pq := by
  induction pq generalizing e with
  | nil => simp [findMin] at h
  | cons x xs ih =>
    simp only [findMin] at h
    cases hm : findMin xs with
    | none =>
      rw [hm] at h
      simp at h
      simp [h]
    | some m =>
      simp only [hm] at h
      by_cases hlt : entryLt m x
      · rw [if_pos hlt] at h
        have hme : m = e := by simpa using h
        subst hme
        exact List.mem_cons_of_mem _ (ih hm)
      · rw [if_neg hlt] at h
        have hxe : x = e := by simpa using h
        simp [hxe]

lemma findMin_min {pq : List Entry} {e : Entry} (h : findMin pq = some e) :
    ∀ x ∈ pq, ¬ entryLt x e := by
  induction pq generalizing e with
  | nil => simp [findMin] at h
  | cons y ys ih =>
    simp only [findMin] at h
    cases hm : findMin ys with
    | none =>
      rw [hm] at h
      have hys : ys = [] := findMin_none_iff.mp hm
      have hye : y = e := by simpa using h
      subst hye hys
      intro x hx
      simp at hx
      subst hx
      exact entryLt_irrefl _
    | some m =>
      simp only [hm] at h
      by_cases hlt : entryLt m y
      · rw [if_pos hlt] at h
        have hme : m = e := by simpa using h
        subst hme
        intro x hx
        rcases List.mem_cons.mp hx with hxe | hxs
        · subst hxe
          exact fun hc => absurd hlt (lt_asymm hc)
        · exact ih hm x hxs
      · rw [if_neg hlt] at h
        have hye : y = e := by simpa using h
        subst hye
        intro x hx
        rcases List.mem_cons.mp hx with hxe | hxs
        · subst hxe; exact entryLt_irrefl _
        · intro hc
          have h1 : ¬ entryKey x < entryKey m := ih hm x hxs
          have h2 : ¬ entryKey m < entryKey y := hlt
          exact h1 (lt_of_lt_of_le hc (not_lt.mp h2))

lemma entryKey_le_dist {x y : Entry} (h : entryKey x ≤ entryKey y) :
    x.1 ≤ y.1 := by
  unfold entryKey at h
  rcases (Prod.Lex.le_iff _ _).mp h with h1 | ⟨h1, _⟩
  · exact le_of_lt h1
  · exact le_of_eq h1

lemma findMin_dist_le {pq : List Entry} {e : Entry} (h : findMin pq = some e) :
    ∀ x ∈ pq, e.1 ≤ x.1 := fun x hx =>
  entryKey_le_dist (not_lt.mp (findMin_min h x hx))

lemma entryLt_of_dist_eq_dur_lt {d : ℚ} {t1 t2 : ℤ} {n1 n2 : Nat}
    {p1 p2 : List Nat} (h : t1 < t2) :
    entryLt (d, t1, n1, p1) (d, t2, n2, p2) := by
  unfold entryLt entryKey
  rw [Prod.Lex.lt_iff]
  right
  exact ⟨rfl, by rw [Prod.Lex.lt_iff]; left; exact h⟩

/-- C2 counterexample: cumulative duration does influence which entry is
popped first.  With equal cumulative distances, the smaller-duration entry is
popped first by findMin; and end to end, two graphs that differ only in
durations (diamondA and diamondB, identical distances everywhere) make
_find_shortest_path return different paths, so the duration carried in the
queue entries is a tie-break key, contrary to the claim. -/
theorem C2_counterexample :
    find_shortest_path diamondA 1 4 = some [1, 2, 4] ∧
    find_shortest_path diamondB 1 4 = some [1, 3, 4] ∧
    findMin [(5, 10, 1, [1]), (5, 2, 2, [2])] = some (5, 2, 2, [2]) ∧
    findMin [(5, 2, 1, [1]), (5, 10, 2, [2])] = some (5, 2, 1, [1]) := by
  refine ⟨?_, ?_, ?_, ?_⟩
  · rw [find_shortest_path,
      if_pos (show (graphMem diamondA 1 && graphMem diamondA 4) = true from by decide),
      show dMeasure diamondA [(0, 0, 1, [1])] [] = 36 + 1 from by decide,
      dijkstraLoop]
    norm_num [findMin, entryLt, entryKey, Prod.Lex.lt_iff, diamondA,
      graphFind, List.find?, List.erase, List.filter]
    rw [show (36 : Nat) = 35 + 1 from rfl, dijkstraLoop]
    norm_num [findMin, entryLt, entryKey, Prod.Lex.lt_iff, diamondA,
      graphFind, List.find?, List.erase, List.filter]
    rw [show (35 : Nat) = 34 + 1 from rfl, dijkstraLoop]
    norm_num [findMin, entryLt, entryKey, Prod.Lex.lt_iff, diamondA,
      graphFind, List.find?, List.erase, List.filter]
    rw [show (34 : Nat) = 33 + 1 from rfl, dijkstraLoop]
    norm_num [findMin, entryLt, entryKey, Prod.Lex.lt_iff, diamondA,
      graphFind, List.find?, List.erase, List.filter]
  · rw [find_shortest_path,
      if_pos (show (graphMem diamondB 1 && graphMem diamondB 4) = true from by decide),
      show dMeasure diamondB [(0, 0, 1, [1])] [] = 36 + 1 from by decide,
      dijkstraLoop]
    norm_num [findMin, entryLt, entryKey, Prod.Lex.lt_iff, diamondB,
      graphFind, List.find?, List.erase, List.filter]
    rw [show (36 : Nat) = 35 + 1 from rfl, dijkstraLoop]
    norm_num [findMin, entryLt, entryKey, Prod.Lex.lt_iff, diamondB,
      graphFind, List.find?, List.erase, List.filter]
    rw [show (35 : Nat) = 34 + 1 from rfl, dijkstraLoop]
    norm_num [findMin, entryLt, entryKey, Prod.Lex.lt_iff, diamondB,
      graphFind, List.find?, List.erase, List.filter]
    rw [show (34 : Nat) = 33 + 1 from rfl, dijkstraLoop]
    norm_num [findMin, entryLt, entryKey, Prod.Lex.lt_iff, diamondB,
      graphFind, List.find?, List.erase, List.filter]
  · norm_num [findMin, entryLt, entryKey, Prod.Lex.lt_iff]
  · norm_num [findMin, entryLt, entryKey, Prod.Lex.lt_iff]

/-- C2 amended: within the priority queue, equal cumulative distances are
tie-broken by cumulative duration (Python tuple ordering): an entry whose
duration exceeds that of another entry with the same cumulative distance is
never the one popped first. -/
theorem C2_amended_pop_order {pq : List Entry} {d : ℚ} {t1 t2 : ℤ}
    {n1 n2 : Nat} {p1 p2 : List Nat} (h1 : (d, t1, n1, p1) ∈ pq)
    (h2 : (d, t2, n2, p2) ∈ pq) (hlt : t1 < t2) :
    findMin pq ≠ some (d, t2, n2, p2) := fun hfm =>
  findMin_min hfm _ h1 (entryLt_of_dist_eq_dur_lt hlt)

/-- C2 amended, witness: in a queue holding two entries of equal distance 5
and durations 2 and 10, the duration-10 entry is not popped first. -/
theorem C2_amended_pop_order_witness :
    findMin [(5, 2, 2, [2]), (5, 10, 1, [1])] ≠ some (5, 10, 1, [1]) :=
  @C2_amended_pop_order [(5, 2, 2, [2]), (5, 10, 1, [1])] 5 2 10 2 1 [2] [1]
    (by decide) (by decide) (by decide)

lemma ngFind_append_key (g : NameGraph) (k v n : String) :
    ngFind (ngAppend g k v) n =
      match ngFind g n with
      | none => none
      | some l => some (if n = k then l ++ [v] else l) := by
  induction g with
  | nil => simp [ngFind, ngAppend]
  | cons p ps ih =>
    by_cases hpn : p.1 = n
    · by_cases hpk : p.1 = k
      · simp [ngFind, ngAppend, List.find?, hpk, hpn, decide_eq_true hpn,
          hpn ▸ hpk]
      · have hnk : ¬ (n = k) := fun h => hpk (hpn.trans h)
        simp [ngFind, ngAppend, List.find?, hpk, decide_eq_true hpn, hnk]
    · simp only [ngAppend, List.map_cons] at ih ⊢
      simp only [ngFind, List.find?]
      by_cases hpk : p.1 = k
      · simp only [if_pos hpk, decide_eq_false hpn]
        simpa [ngFind, ngAppend] using ih
      · simp only [if_neg hpk, decide_eq_false hpn]
        simpa [ngFind, ngAppend] using ih

lemma ngFind_concat_new (g : NameGraph) (k n : String) :
    ngFind (g ++ [(k, [])]) n =
      match ngFind g n with
      | some l => some l
      | none => if n = k then some [] else none := by
  induction g with
  | nil =>
    by_cases hnk : n = k
    · simp [ngFind, List.find?, hnk]
    · simp [ngFind, List.find?, hnk, show ¬ (k = n) from fun h => hnk h.symm]
  | cons p ps ih =>
    by_cases hpn : p.1 = n
    · simp [ngFind, List.find?, decide_eq_true hpn]
    · simp only [List.cons_append, ngFind, List.find?, decide_eq_false hpn]
      simpa [ngFind] using ih

lemma ngFind_ensure (g : NameGraph) (k n : String) :
    ngFind (ngEnsure g k) n =
      match ngFind g n with
      | some l => some l
      | none => if n = k ∧ ngMem g k = false then some [] else none := by
  unfold ngEnsure
  by_cases hm : ngMem g k
  · simp only [hm, if_true]
    cases h : ngFind g n <;> simp [hm, h]
  · simp only [hm, if_false, Bool.false_eq_true]
    rw [ngFind_concat_new]
    cases h : ngFind g n with
    | some l => simp
    | none =>
      have hmf : ngMem g k = false := by simpa using hm
      by_cases hnk : n = k <;> simp [hnk, hmf]

lemma ngMem_iff_find (g : NameGraph) (n : String) :
    ngMem g n = true ↔ ∃ l, ngFind g n = some l := by
  unfold ngMem
  cases h : ngFind g n <;> simp [h]

lemma ngHasValue_append {g : NameGraph} {k v n : String}
    (h : ¬ ngHasValue g n) (hnv : n ≠ v) :
    ¬ ngHasValue (ngAppend g k v) n := by
  intro ⟨p, hp, hvp⟩
  rcases List.mem_map.mp hp with ⟨q, hq, hfq⟩
  by_cases hqk : q.1 = k
  · rw [if_pos hqk] at hfq
    subst hfq
    simp only [List.mem_append, List.mem_singleton] at hvp
    rcases hvp with hvp | hvp
    · exact h ⟨q, hq, hvp⟩
    · exact hnv hvp
  · rw [if_neg hqk] at hfq
    subst hfq
    exact h ⟨q, hq, hvp⟩

lemma ngHasValue_ensure {g : NameGraph} {k n : String}
    (h : ¬ ngHasValue g n) :
    ¬ ngHasValue (ngEnsure g k) n := by
  unfold ngEnsure
  split
  · exact h
  · intro ⟨p, hp, hvp⟩
    rcases List.mem_append.mp hp with hpg | hpe
    · exact h ⟨p, hpg, hvp⟩
    · simp only [List.mem_singleton] at hpe
      subst hpe
      simp at hvp

lemma ngMem_append_iff (g : NameGraph) (k v n : String) :
    ngMem (ngAppend g k v) n = ngMem g n := by
  unfold ngMem
  rw [ngFind_append_key]
  cases h : ngFind g n <;> simp

lemma ngMem_ensure_iff (g : NameGraph) (k n : String) :
    ngMem (ngEnsure g k) n = (ngMem g n || decide (n = k)) := by
  unfold ngMem
  rw [ngFind_ensure]
  cases h : ngFind g n with
  | some l => simp
  | none =>
    have hm : ngMem g n = false := by unfold ngMem; simp [h]
    by_cases hnk : n = k
    · subst hnk
      simp [hm]
    · simp [hnk, hm]

lemma addConnection_absent {g : NameGraph} {a b n : String}
    (hna : n ≠ a) (hnb : n ≠ b) (hk : ngMem g n = false)
    (hv : ¬ ngHasValue g n) :
    ngMem (addConnection g a b) n = false ∧
      ¬ ngHasValue (addConnection g a b) n := by
  unfold addConnection
  have h1k : ngMem (ngEnsure (ngEnsure g a) b) n = false := by
    rw [ngMem_ensure_iff, ngMem_ensure_iff, hk]
    simp [hna, hnb]
  have h1v : ¬ ngHasValue (ngEnsure (ngEnsure g a) b) n :=
    ngHasValue_ensure (ngHasValue_ensure hv)
  have step : ∀ (h : NameGraph) (k v : String), n ≠ v →
      ngMem h n = false → ¬ ngHasValue h n →
      ngMem (addConnEdge h k v) n = false ∧
        ¬ ngHasValue (addConnEdge h k v) n := by
    intro h k v hnv hmk hmv
    unfold addConnEdge
    split
    · exact ⟨hmk, hmv⟩
    · exact ⟨by rw [ngMem_append_iff]; exact hmk, ngHasValue_append hmv hnv⟩
  have h2 := step _ a b hnb h1k h1v
  exact step _ b a hna h2.1 h2.2

lemma foldl_preserve {α : Type} {P : NameGraph → Prop}
    {step : NameGraph → α → NameGraph}
    (hstep : ∀ g x, P g → P (step g x)) :
    ∀ (l : List α) (g : NameGraph), P g → P (l.foldl step g) := by
  intro l
  induction l with
  | nil => intro g hg; exact hg
  | cons x xs ih => intro g hg; exact ih _ (hstep g x hg)

lemma foldl_mem_of_elem {α : Type} {P : NameGraph → Prop}
    {step : NameGraph → α → NameGraph} {x : α}
    (htrig : ∀ g, P (step g x))
    (hmono : ∀ g y, P g → P (step g y)) :
    ∀ (l : List α) (g : NameGraph), x ∈ l → P (l.foldl step g) := by
  intro l
  induction l with
  | nil => intro g hx; simp at hx
  | cons y ys ih =>
    intro g hx
    rcases List.mem_cons.mp hx with hxy | hxs
    · subst hxy
      exact foldl_preserve hmono ys _ (htrig g)
    · exact ih _ hxs

lemma coded_ne_real {n m : String} (hn : matchesCodedPattern n = true)
    (hm : is_real_station_name m = true) : n ≠ m := by
  intro h
  subst h
  unfold is_real_station_name at hm
  rw [hn] at hm
  simp at hm

lemma foldSegment_absent {g : NameGraph} {n : String}
    (hn : matchesCodedPattern n = true)
    (hk : ngMem g n = false) (hv : ¬ ngHasValue g n)
    (fs ts : Option Station) :
    ngMem (foldSegment g fs ts) n = false ∧
      ¬ ngHasValue (foldSegment g fs ts) n := by
  unfold foldSegment
  match fs, ts with
  | some f, some t =>
    simp only
    split
    · rename_i hreal
      rw [Bool.and_eq_true] at hreal
      exact addConnection_absent (coded_ne_real hn hreal.1)
        (coded_ne_real hn hreal.2) hk hv
    · exact ⟨hk, hv⟩
  | some f, none => exact ⟨hk, hv⟩
  | none, some t => exact ⟨hk, hv⟩
  | none, none => exact ⟨hk, hv⟩

lemma empty_absent (n : String) :
    ngMem ([] : NameGraph) n = false ∧ ¬ ngHasValue ([] : NameGraph) n := by
  constructor
  · rfl
  · intro ⟨p, hp, _⟩
    simp at hp

lemma buildRS_absent {n : String} (hn : matchesCodedPattern n = true)
    (segs : List RouteSegment) :
    ngMem (build_graph_from_route_segments segs) n = false ∧
      ¬ ngHasValue (build_graph_from_route_segments segs) n := by
  unfold build_graph_from_route_segments
  exact @foldl_preserve RouteSegment
    (fun g => ngMem g n = false ∧ ¬ ngHasValue g n)
    (fun g seg => foldSegment g seg.from_station seg.to_station)
    (fun g seg hp => foldSegment_absent hn hp.1 hp.2 _ _)
    _ _ (empty_absent n)

lemma addIS_absent {n : String} (hn : matchesCodedPattern n = true)
    (isegs : List IntersectionSegment) {g : NameGraph}
    (hg : ngMem g n = false ∧ ¬ ngHasValue g n) :
    ngMem (add_intersection_segments_to_graph isegs g) n = false ∧
      ¬ ngHasValue (add_intersection_segments_to_graph isegs g) n := by
  unfold add_intersection_segments_to_graph
  exact @foldl_preserve IntersectionSegment
    (fun g => ngMem g n = false ∧ ¬ ngHasValue g n)
    (fun g seg => foldSegment g seg.from_station seg.to_station)
    (fun g seg hp => foldSegment_absent hn hp.1 hp.2 _ _)
    _ _ hg

lemma ngFind_sortValues (g : NameGraph) (n : String) :
    ngFind (sortGraphValues g) n = (ngFind g n).map pySortStrings := by
  induction g with
  | nil => simp [ngFind, sortGraphValues]
  | cons p ps ih =>
    by_cases hpn : p.1 = n
    · simp [ngFind, sortGraphValues, List.find?, decide_eq_true hpn]
    · simp only [sortGraphValues, List.map_cons, ngFind, List.find?,
        decide_eq_false hpn]
      simpa [ngFind, sortGraphValues] using ih

lemma sortValues_absent {n : String} {g : NameGraph}
    (hg : ngMem g n = false ∧ ¬ ngHasValue g n) :
    ngMem (sortGraphValues g) n = false ∧
      ¬ ngHasValue (sortGraphValues g) n := by
  constructor
  · unfold ngMem
    rw [ngFind_sortValues]
    unfold ngMem at hg
    cases h : ngFind g n
    · simp
    · rw [h] at hg; simp at hg
  · intro ⟨p, hp, hvp⟩
    rcases List.mem_map.mp hp with ⟨q, hq, hfq⟩
    subst hfq
    exact hg.2 ⟨q, hq,
      ((List.perm_insertionSort _ q.2).mem_iff).mp hvp⟩

lemma ngMem_ensure_self (g : NameGraph) (k : String) :
    ngMem (ngEnsure g k) k = true := by
  rw [ngMem_ensure_iff]
  simp

lemma ngMem_addConnEdge (g : NameGraph) (k v n : String) :
    ngMem (addConnEdge g k v) n = ngMem g n := by
  unfold addConnEdge
  split
  · rfl
  · exact ngMem_append_iff g k v n

lemma addConnection_mem_keys (g : NameGraph) (a b : String) :
    ngMem (addConnection g a b) a = true ∧
      ngMem (addConnection g a b) b = true := by
  unfold addConnection
  rw [ngMem_addConnEdge, ngMem_addConnEdge, ngMem_addConnEdge,
    ngMem_addConnEdge]
  constructor
  · rw [ngMem_ensure_iff, ngMem_ensure_self]
    simp
  · exact ngMem_ensure_self _ b

lemma addConnection_mem_mono {g : NameGraph} {n : String} (a b : String)
    (h : ngMem g n = true) : ngMem (addConnection g a b) n = true := by
  unfold addConnection
  rw [ngMem_addConnEdge, ngMem_addConnEdge, ngMem_ensure_iff,
    ngMem_ensure_iff, h]
  simp

lemma foldSegment_mem_mono {g : NameGraph} {n : String}
    (fs ts : Option Station) (h : ngMem g n = true) :
    ngMem (foldSegment g fs ts) n = true := by
  unfold foldSegment
  match fs, ts with
  | some f, some t =>
    simp only
    split
    · exact addConnection_mem_mono _ _ h
    · exact h
  | some f, none => exact h
  | none, some t => exact h
  | none, none => exact h

/-- C3 counterexample: the station named BL12 (two uppercase letters followed
by digits) is NOT excluded by the exporter: the regex only matches a single
uppercase letter followed by digits, so BL12 passes is_real_station_name and
appears both as a key and as a neighbor value of the graph built from one
active segment BL12 - Siam. -/
theorem C3_counterexample :
    is_real_station_name ("BL12") = true ∧
    ngMem (build_graph_from_route_segments [segBL12]) "BL12" = true ∧
    "BL12" ∈ ngAdj (build_graph_from_route_segments [segBL12]) "Siam" := by
  refine ⟨rfl, ?_, ?_⟩ <;> decide

/-- C3 amended: a station name matching the coded pattern actually used by
the code - one uppercase letter followed by one or more digits, such as N1,
E4 or S12, but not two-letter codes such as BL12 - is never a key and never
a neighbor value in any adjacency list built by
build_graph_from_route_segments, add_intersection_segments_to_graph,
generate_complete_graph or get_graph_by_line_id, regardless of how many
segments reference it; and a real name such as Siam is a key whenever some
active segment with both station relationships resolved and both names real
references it. -/
theorem C3_amended_name_filter :
    (∀ n, matchesCodedPattern n = true →
      ∀ segs isegs lines ipc ln,
        (ngMem (build_graph_from_route_segments segs) n = false ∧
          ¬ ngHasValue (build_graph_from_route_segments segs) n) ∧
        (ngMem (add_intersection_segments_to_graph isegs
            (build_graph_from_route_segments segs)) n = false ∧
          ¬ ngHasValue (add_intersection_segments_to_graph isegs
            (build_graph_from_route_segments segs)) n) ∧
        (ngMem (generate_complete_graph segs isegs lines ipc).1 n = false ∧
          ¬ ngHasValue (generate_complete_graph segs isegs lines ipc).1 n) ∧
        (ngMem (get_graph_by_line_id segs ln).1 n = false ∧
          ¬ ngHasValue (get_graph_by_line_id segs ln).1 n)) ∧
    (∀ segs : List RouteSegment,
      (∃ seg ∈ segs, seg.status = "active" ∧
        ∃ fs ts, seg.from_station = some fs ∧ seg.to_station = some ts ∧
          is_real_station_name fs.name = true ∧
          is_real_station_name ts.name = true ∧
          (fs.name = "Siam" ∨ ts.name = "Siam")) →
      ngMem (build_graph_from_route_segments segs) "Siam" = true) := by
  constructor
  · intro n hn segs isegs lines ipc ln
    have h1 := buildRS_absent hn segs
    have h2 := addIS_absent hn isegs h1
    refine ⟨h1, h2, ?_, ?_⟩
    · exact sortValues_absent h2
    · exact sortValues_absent h1
  · intro segs ⟨seg, hseg, hact, fs, ts, hfs, hts, hrf, hrt, hnm⟩
    unfold build_graph_from_route_segments
    have hmem : seg ∈ segs.filter (fun s => decide (s.status = "active")) := by
      rw [List.mem_filter]
      exact ⟨hseg, by simp [hact]⟩
    refine @foldl_mem_of_elem RouteSegment
      (fun g => ngMem g "Siam" = true)
      (fun g s => foldSegment g s.from_station s.to_station) seg
      ?_ (fun g y hp => foldSegment_mem_mono _ _ hp) _ _ hmem
    intro g
    show ngMem (foldSegment g seg.from_station seg.to_station) "Siam" = true
    rw [hfs, hts]
    unfold foldSegment
    simp only [hrf, hrt, Bool.and_self, if_true]
    rcases hnm with h | h
    · rw [← h]; exact (addConnection_mem_keys g fs.name ts.name).1
    · rw [← h]; exact (addConnection_mem_keys g fs.name ts.name).2

/-- C3 amended, witness: the coded name N1 is absent from the complete graph
built from segments referencing it twice, while Siam is a key there. -/
theorem C3_amended_name_filter_witness :
    matchesCodedPattern "N1" = true ∧
    ngMem (build_graph_from_route_segments
      [⟨some ⟨1, "N1"⟩, some ⟨2, "Siam"⟩, "active"⟩,
       ⟨some ⟨3, "Asok"⟩, some ⟨1, "N1"⟩, "active"⟩]) "N1" = false ∧
    ngMem (build_graph_from_route_segments
      [⟨some ⟨1, "N1"⟩, some ⟨2, "Siam"⟩, "active"⟩,
       ⟨some ⟨2, "Siam"⟩, some ⟨3, "Asok"⟩, "active"⟩]) "Siam" = true := by
  refine ⟨by decide, ?_, ?_⟩
  · exact (((C3_amended_name_filter.1 "N1" (by decide)
      [⟨some ⟨1, "N1"⟩, some ⟨2, "Siam"⟩, "active"⟩,
       ⟨some ⟨3, "Asok"⟩, some ⟨1, "N1"⟩, "active"⟩] [] [] 0 none).1).1)
  · exact C3_amended_name_filter.2
      [⟨some ⟨1, "N1"⟩, some ⟨2, "Siam"⟩, "active"⟩,
       ⟨some ⟨2, "Siam"⟩, some ⟨3, "Asok"⟩, "active"⟩]
      ⟨⟨some ⟨2, "Siam"⟩, some ⟨3, "Asok"⟩, "active"⟩, by decide, rfl,
        ⟨2, "Siam"⟩, ⟨3, "Asok"⟩, rfl, rfl, rfl, rfl, Or.inl rfl⟩

lemma foldl_preserve_mem {α : Type} {P : NameGraph → Prop}
    {step : NameGraph → α → NameGraph} :
    ∀ {l : List α}, (∀ g x, x ∈ l → P g → P (step g x)) →
      ∀ {g : NameGraph}, P g → P (l.foldl step g) := by
  intro l
  induction l with
  | nil => intro _ g hg; exact hg
  | cons x xs ih =>
    intro hstep g hg
    exact ih (fun g y hy => hstep g y (List.mem_cons_of_mem _ hy)) (hstep g x (List.mem_cons_self _ _) hg)

lemma ngAdj_ensure (g : NameGraph) (k n : String) :
    ngAdj (ngEnsure g k) n = ngAdj g n := by
  unfold ngAdj
  rw [ngFind_ensure]
  cases h : ngFind g n with
  | some l => rfl
  | none =>
    simp only
    split <;> rfl

lemma ngAdj_append (g : NameGraph) (k v n : String) :
    ngAdj (ngAppend g k v) n =
      if n = k ∧ ngMem g k = true then ngAdj g n ++ [v] else ngAdj g n := by
  unfold ngAdj
  rw [ngFind_append_key]
  by_cases hnk : n = k
  · subst hnk
    cases h : ngFind g n with
    | some l =>
      have : ngMem g n = true := by unfold ngMem; rw [h]; rfl
      simp [this]
    | none =>
      have : ngMem g n = false := by unfold ngMem; rw [h]; rfl
      simp [this]
  · cases h : ngFind g n <;> simp [hnk]

lemma ngMem_false_iff_keys (g : NameGraph) (n : String) :
    ngMem g n = false ↔ n ∉ g.map (fun p => p.1) := by
  unfold ngMem ngFind
  cases h : g.find? (fun p => decide (p.1 = n)) with
  | some p =>
    have := List.find?_some h
    simp only [decide_eq_true_eq] at this
    simp only [Option.isSome_some, Bool.true_eq_false, false_iff, not_not]
    exact this ▸ List.mem_map_of_mem _ (List.mem_of_find?_eq_some h)
  | none =>
    rw [List.find?_eq_none] at h
    simp only [Option.isSome_none, true_iff]
    intro hmem
    rcases List.mem_map.mp hmem with ⟨p, hp, hpn⟩
    exact absurd (decide_eq_true hpn) (by simpa using h p hp)

lemma ngMem_true_iff_keys (g : NameGraph) (n : String) :
    ngMem g n = true ↔ n ∈ g.map (fun p => p.1) := by
  cases h : ngMem g n with
  | false =>
    rw [ngMem_false_iff_keys] at h
    simp [h]
  | true =>
    simp only [true_iff]
    by_contra hc
    have := ngMem_false_iff_keys g n |>.mpr hc
    rw [h] at this
    exact Bool.true_eq_false.mp this

lemma ngKeys_append (g : NameGraph) (k v : String) :
    (ngAppend g k v).map (fun p => p.1) = g.map (fun p => p.1) := by
  unfold ngAppend
  rw [List.map_map]
  apply List.map_congr_left
  intro p _
  by_cases hpk : p.1 = k <;> simp [hpk]

lemma ngKeys_ensure (g : NameGraph) (k : String) :
    (ngEnsure g k).map (fun p => p.1) =
      if ngMem g k then g.map (fun p => p.1)
      else g.map (fun p => p.1) ++ [k] := by
  unfold ngEnsure
  split <;> simp_all

lemma ngFind_of_mem_nodup {g : NameGraph} {p : String × List String}
    (hnd : (g.map (fun q => q.1)).Nodup) (hp : p ∈ g) :
    ngFind g p.1 = some p.2 := by
  induction g with
  | nil => simp at hp
  | cons q qs ih =>
    rcases List.mem_cons.mp hp with hpq | hps
    · subst hpq
      simp [ngFind, List.find?]
    · have hq1 : q.1 ≠ p.1 := by
        intro he
        rw [List.map_cons, List.nodup_cons] at hnd
        exact hnd.1 (he ▸ List.mem_map_of_mem _ hps)
      simp only [ngFind, List.find?, decide_eq_false hq1]
      exact ih (by rw [List.map_cons, List.nodup_cons] at hnd; exact hnd.2) hps

lemma sum_ngEnsure (g : NameGraph) (k : String) :
    sumConnections (ngEnsure g k) = sumConnections g := by
  unfold ngEnsure
  split
  · rfl
  · unfold sumConnections
    simp

lemma ngAppend_eq_of_not_mem {g : NameGraph} {k : String} (v : String)
    (h : ∀ p ∈ g, p.1 ≠ k) : ngAppend g k v = g := by
  unfold ngAppend
  conv_rhs => rw [← List.map_id g]
  apply List.map_congr_left
  intro p hp
  simp [h p hp]

lemma sum_ngAppend {g : NameGraph} {k : String} (v : String)
    (hnd : (g.map (fun q => q.1)).Nodup) (hm : ngMem g k = true) :
    sumConnections (ngAppend g k v) = sumConnections g + 1 := by
  induction g with
  | nil => rw [ngMem_true_iff_keys] at hm; simp at hm
  | cons p ps ih =>
    rw [List.map_cons, List.nodup_cons] at hnd
    by_cases hpk : p.1 = k
    · have hkeys : ∀ q ∈ ps, q.1 ≠ k := by
        intro q hq he
        exact hnd.1 (hpk ▸ he ▸ List.mem_map_of_mem _ hq)
      unfold ngAppend sumConnections
      simp only [List.map_cons, if_pos hpk, List.map_map]
      have : List.map ((fun q => q.2.length) ∘
          fun q => if q.1 = k then (q.1, q.2 ++ [v]) else q) ps =
          List.map (fun q => q.2.length) ps := by
        apply List.map_congr_left
        intro q hq
        simp [hkeys q hq]
      rw [this]
      simp [Nat.add_assoc, Nat.add_comm 1]
    · have hm2 : ngMem ps k = true := by
        rw [ngMem_true_iff_keys] at hm ⊢
        rcases List.mem_map.mp hm with ⟨q, hq, hqk⟩
        rcases List.mem_cons.mp hq with hqp | hqs
        · exact absurd (hqp ▸ hqk) hpk
        · exact hqk ▸ List.mem_map_of_mem _ hqs
      unfold ngAppend sumConnections
      simp only [List.map_cons, if_neg hpk]
      have := ih hnd.2 hm2
      unfold ngAppend sumConnections at this
      simp only [List.sum_cons]
      rw [this]
      ring

lemma upc_ngEnsure (g : NameGraph) (k : String) :
    unorderedPairCount (ngEnsure g k) = unorderedPairCount g := by
  unfold ngEnsure
  split
  · rfl
  · unfold unorderedPairCount
    simp

lemma upc_ngAppend {g : NameGraph} {k : String} (v : String)
    (hnd : (g.map (fun q => q.1)).Nodup) (hm : ngMem g k = true) :
    unorderedPairCount (ngAppend g k v) =
      unorderedPairCount g + (if k.data < v.data then 1 else 0) := by
  induction g with
  | nil => rw [ngMem_true_iff_keys] at hm; simp at hm
  | cons p ps ih =>
    rw [List.map_cons, List.nodup_cons] at hnd
    by_cases hpk : p.1 = k
    · have hkeys : ∀ q ∈ ps, q.1 ≠ k := by
        intro q hq he
        exact hnd.1 (hpk ▸ he ▸ List.mem_map_of_mem _ hq)
      unfold ngAppend unorderedPairCount
      simp only [List.map_cons, if_pos hpk, List.map_map]
      have heq : List.map ((fun q =>
          (q.2.filter (fun x => decide (q.1.data < x.data))).length) ∘
          fun q => if q.1 = k then (q.1, q.2 ++ [v]) else q) ps =
          List.map (fun q =>
            (q.2.filter (fun x => decide (q.1.data < x.data))).length) ps := by
        apply List.map_congr_left
        intro q hq
        simp [hkeys q hq]
      rw [heq]
      simp only [List.sum_cons, List.filter_append, List.length_append, hpk]
      by_cases hkv : k.data < v.data
      · rw [if_pos hkv]
        simp [List.filter, decide_eq_true hkv]
        ring
      · rw [if_neg hkv]
        simp [List.filter, decide_eq_false hkv]
    · have hm2 : ngMem ps k = true := by
        rw [ngMem_true_iff_keys] at hm ⊢
        rcases List.mem_map.mp hm with ⟨q, hq, hqk⟩
        rcases List.mem_cons.mp hq with hqp | hqs
        · exact absurd (hqp ▸ hqk) hpk
        · exact hqk ▸ List.mem_map_of_mem _ hqs
      unfold ngAppend unorderedPairCount
      simp only [List.map_cons, if_neg hpk, List.sum_cons]
      have := ih hnd.2 hm2
      unfold ngAppend unorderedPairCount at this
      rw [this]
      exact (Nat.add_assoc _ _ _).symm

lemma addConnection_mem (g : NameGraph) (a b n : String) :
    ngMem (addConnection g a b) n =
      (ngMem g n || decide (n = a) || decide (n = b)) := by
  unfold addConnection
  rw [ngMem_addConnEdge, ngMem_addConnEdge, ngMem_ensure_iff, ngMem_ensure_iff]

lemma addConnection_adj {g : NameGraph} (hsym : SymGraph g) (a b n : String) :
    ngAdj (addConnection g a b) n =
      if b ∈ ngAdj g a then ngAdj g n
      else if a = b then (if n = a then ngAdj g n ++ [a] else ngAdj g n)
      else if n = a then ngAdj g n ++ [b]
      else if n = b then ngAdj g n ++ [a]
      else ngAdj g n := by
  unfold addConnection
  have hG1adj : ∀ x, ngAdj (ngEnsure (ngEnsure g a) b) x = ngAdj g x := by
    intro x; rw [ngAdj_ensure, ngAdj_ensure]
  have hG1a : ngMem (ngEnsure (ngEnsure g a) b) a = true := by
    rw [ngMem_ensure_iff, ngMem_ensure_self]
    simp
  have hG1b : ngMem (ngEnsure (ngEnsure g a) b) b = true :=
    ngMem_ensure_self _ b
  by_cases c1 : b ∈ ngAdj g a
  · rw [if_pos c1]
    have he1 : addConnEdge (ngEnsure (ngEnsure g a) b) a b =
        ngEnsure (ngEnsure g a) b := by
      unfold addConnEdge
      rw [if_pos (by rw [hG1adj]; exact c1)]
    rw [he1]
    have c2 : a ∈ ngAdj (ngEnsure (ngEnsure g a) b) b := by
      rw [hG1adj]
      exact (hsym a b c1).2.2
    unfold addConnEdge
    rw [if_pos c2]
    exact hG1adj n
  · rw [if_neg c1]
    have he1 : addConnEdge (ngEnsure (ngEnsure g a) b) a b =
        ngAppend (ngEnsure (ngEnsure g a) b) a b := by
      unfold addConnEdge
      rw [if_neg (by rw [hG1adj]; exact c1)]
    rw [he1]
    have hG2adj : ∀ x, ngAdj (ngAppend (ngEnsure (ngEnsure g a) b) a b) x =
        if x = a then ngAdj g x ++ [b] else ngAdj g x := by
      intro x
      rw [ngAdj_append]
      by_cases hxa : x = a
      · rw [if_pos ⟨hxa, hG1a⟩, if_pos hxa, hG1adj]
      · rw [if_neg (fun hc => hxa hc.1), if_neg hxa, hG1adj]
    by_cases hab : a = b
    · rw [if_pos hab]
      subst hab
      have c2 : a ∈ ngAdj (ngAppend (ngEnsure (ngEnsure g a) a) a a) a := by
        rw [hG2adj]
        simp
      unfold addConnEdge
      rw [if_pos c2, hG2adj]
    · rw [if_neg hab]
      have c2 : a ∉ ngAdj (ngAppend (ngEnsure (ngEnsure g a) b) a b) b := by
        rw [hG2adj, if_neg (fun hc => hab hc.symm)]
        intro hc
        exact c1 (hsym b a hc).2.2
      unfold addConnEdge
      rw [if_neg c2]
      rw [ngAdj_append]
      have hG2b : ngMem (ngAppend (ngEnsure (ngEnsure g a) b) a b) b = true := by
        rw [ngMem_append_iff]
        exact hG1b
      by_cases hnb : n = b
      · rw [if_pos ⟨hnb, hG2b⟩, hG2adj,
          if_neg (fun hc : n = a => hab (hc.symm.trans hnb)), if_pos hnb,
          if_neg (fun hc : n = a => hab (hc.symm.trans hnb))]
      · rw [if_neg (fun hc => hnb hc.1), hG2adj, if_neg hnb]

lemma addConnection_edge_iff {g : NameGraph} (hsym : SymGraph g)
    (a b x y : String) :
    y ∈ ngAdj (addConnection g a b) x ↔
      y ∈ ngAdj g x ∨
        (b ∉ ngAdj g a ∧ ((x = a ∧ y = b) ∨ (x = b ∧ y = a))) := by
  rw [addConnection_adj hsym]
  by_cases c1 : b ∈ ngAdj g a
  · rw [if_pos c1]
    simp [c1]
  · rw [if_neg c1]
    by_cases hab : a = b
    · rw [if_pos hab]
      by_cases hxa : x = a
      · rw [if_pos hxa]
        subst hab
        simp [c1, hxa]
      · rw [if_neg hxa]
        subst hab
        simp [c1, hxa]
    · rw [if_neg hab]
      by_cases hxa : x = a
      · rw [if_pos hxa]
        simp [c1, hxa, hab, fun h : x = b => hab (hxa.symm.trans h)]
      · rw [if_neg hxa]
        by_cases hxb : x = b
        · rw [if_pos hxb]
          simp [c1, hxa, hxb, show ¬ (b = a) from fun h => hab h.symm]
        · rw [if_neg hxb]
          simp [c1, hxa, hxb]

lemma addConnection_sym {g : NameGraph} (hsym : SymGraph g) (a b : String) :
    SymGraph (addConnection g a b) := by
  intro x y hy
  rw [addConnection_edge_iff hsym] at hy
  rcases hy with hold | ⟨hc1, hadd⟩
  · rcases hsym x y hold with ⟨hx, hy2, hxy⟩
    refine ⟨by rw [addConnection_mem, hx]; simp,
      by rw [addConnection_mem, hy2]; simp, ?_⟩
    rw [addConnection_edge_iff hsym]
    exact Or.inl hxy
  · rcases hadd with ⟨hxa, hyb⟩ | ⟨hxb, hya⟩
    · subst hxa; subst hyb
      refine ⟨by rw [addConnection_mem]; simp,
        by rw [addConnection_mem]; simp, ?_⟩
      rw [addConnection_edge_iff hsym]
      exact Or.inr ⟨hc1, Or.inr ⟨rfl, rfl⟩⟩
    · subst hxb; subst hya
      refine ⟨by rw [addConnection_mem]; simp,
        by rw [addConnection_mem]; simp, ?_⟩
      rw [addConnection_edge_iff hsym]
      exact Or.inr ⟨hc1, Or.inl ⟨rfl, rfl⟩⟩

lemma nodup_ngEnsure {g : NameGraph} (hnd : NodupGraph g) (k : String) :
    NodupGraph (ngEnsure g k) := by
  constructor
  · rw [ngKeys_ensure]
    cases hm : ngMem g k with
    | true => simp [hnd.1]
    | false =>
      rw [ngMem_false_iff_keys] at hm
      simp [List.nodup_append, hnd.1, hm]
  · intro p hp
    unfold ngEnsure at hp
    split at hp
    · exact hnd.2 p hp
    · rcases List.mem_append.mp hp with hpg | hpe
      · exact hnd.2 p hpg
      · simp only [List.mem_singleton] at hpe
        subst hpe
        exact List.nodup_nil

lemma nodup_addConnEdge {g : NameGraph} (hnd : NodupGraph g) (k v : String) :
    NodupGraph (addConnEdge g k v) := by
  unfold addConnEdge
  split
  · exact hnd
  · rename_i hvk
    constructor
    · rw [ngKeys_append]
      exact hnd.1
    · intro p hp
      unfold ngAppend at hp
      rcases List.mem_map.mp hp with ⟨q, hq, hfq⟩
      by_cases hqk : q.1 = k
      · rw [if_pos hqk] at hfq
        subst hfq
        simp only [List.nodup_append, List.nodup_cons, List.nodup_nil]
        refine ⟨hnd.2 q hq, by simp, ?_⟩
        have : ngFind g q.1 = some q.2 := ngFind_of_mem_nodup hnd.1 hq
        intro x hx hx1
        simp only [List.mem_singleton] at hx1
        subst hx1
        apply hvk
        unfold ngAdj
        rw [← hqk, this]
        exact hx
      · rw [if_neg hqk] at hfq
        subst hfq
        exact hnd.2 q hq

lemma nodup_addConnection {g : NameGraph} (hnd : NodupGraph g)
    (a b : String) : NodupGraph (addConnection g a b) :=
  nodup_addConnEdge (nodup_addConnEdge
    (nodup_ngEnsure (nodup_ngEnsure hnd a) b) a b) b a

lemma addConnection_eq_of_mem {g : NameGraph} (hsym : SymGraph g)
    {a b : String} (c1 : b ∈ ngAdj g a) :
    addConnection g a b = ngEnsure (ngEnsure g a) b := by
  unfold addConnection addConnEdge
  have h1 : b ∈ ngAdj (ngEnsure (ngEnsure g a) b) a := by
    rw [ngAdj_ensure, ngAdj_ensure]; exact c1
  rw [if_pos h1]
  have h2 : a ∈ ngAdj (ngEnsure (ngEnsure g a) b) b := by
    rw [ngAdj_ensure, ngAdj_ensure]; exact (hsym a b c1).2.2
  rw [if_pos h2]

lemma addConnection_eq_of_not_mem {g : NameGraph} (hsym : SymGraph g)
    {a b : String} (hab : a ≠ b) (c1 : b ∉ ngAdj g a) :
    addConnection g a b =
      ngAppend (ngAppend (ngEnsure (ngEnsure g a) b) a b) b a := by
  unfold addConnection addConnEdge
  have h1 : b ∉ ngAdj (ngEnsure (ngEnsure g a) b) a := by
    rw [ngAdj_ensure, ngAdj_ensure]; exact c1
  rw [if_neg h1]
  have h2 : a ∉ ngAdj (ngAppend (ngEnsure (ngEnsure g a) b) a b) b := by
    rw [ngAdj_append]
    rw [if_neg (fun hc : b = a ∧ _ => hab hc.1.symm)]
    rw [ngAdj_ensure, ngAdj_ensure]
    intro hc
    exact c1 (hsym b a hc).2.2
  rw [if_neg h2]

lemma addConnection_sum_upc {g : NameGraph} (hsym : SymGraph g)
    (hnd : NodupGraph g) {a b : String} (hab : a ≠ b)
    (hsum : sumConnections g = 2 * unorderedPairCount g) :
    sumConnections (addConnection g a b) =
      2 * unorderedPairCount (addConnection g a b) := by
  by_cases c1 : b ∈ ngAdj g a
  · rw [addConnection_eq_of_mem hsym c1, sum_ngEnsure, sum_ngEnsure,
      upc_ngEnsure, upc_ngEnsure]
    exact hsum
  · rw [addConnection_eq_of_not_mem hsym hab c1]
    have hnd1 : NodupGraph (ngEnsure (ngEnsure g a) b) :=
      nodup_ngEnsure (nodup_ngEnsure hnd a) b
    have hma : ngMem (ngEnsure (ngEnsure g a) b) a = true := by
      rw [ngMem_ensure_iff, ngMem_ensure_self]; simp
    have hmb : ngMem (ngEnsure (ngEnsure g a) b) b = true :=
      ngMem_ensure_self _ b
    have hnd2 : (ngAppend (ngEnsure (ngEnsure g a) b) a b).map
        (fun q => q.1) |>.Nodup := by
      rw [ngKeys_append]; exact hnd1.1
    have hmb2 : ngMem (ngAppend (ngEnsure (ngEnsure g a) b) a b) b = true := by
      rw [ngMem_append_iff]; exact hmb
    rw [sum_ngAppend a hnd2 hmb2, sum_ngAppend b hnd1.1 hma,
      sum_ngEnsure, sum_ngEnsure,
      upc_ngAppend a hnd2 hmb2, upc_ngAppend b hnd1.1 hma,
      upc_ngEnsure, upc_ngEnsure, hsum]
    have habd : a.data ≠ b.data := fun h => hab (by
      cases a; cases b; simp_all [String.data])
    rcases lt_trichotomy a.data b.data with h | h | h
    · rw [if_pos h, if_neg (fun hc => absurd (lt_trans h hc) (lt_irrefl _))]
      ring
    · exact absurd h habd
    · rw [if_neg (fun hc => absurd (lt_trans h hc) (lt_irrefl _)), if_pos h]
      ring

lemma foldSegment_sym_nodup {g : NameGraph}
    (h : SymGraph g ∧ NodupGraph g) (fs ts : Option Station) :
    SymGraph (foldSegment g fs ts) ∧ NodupGraph (foldSegment g fs ts) := by
  unfold foldSegment
  match fs, ts with
  | some f, some t =>
    simp only
    split
    · exact ⟨addConnection_sym h.1 _ _, nodup_addConnection h.2 _ _⟩
    · exact h
  | some f, none => exact h
  | none, some t => exact h
  | none, none => exact h

lemma foldSegment_counts {g : NameGraph} {fs ts : Option Station}
    (h : SymGraph g ∧ NodupGraph g ∧
      sumConnections g = 2 * unorderedPairCount g)
    (hne : ∀ f t, fs = some f → ts = some t → f.name ≠ t.name) :
    SymGraph (foldSegment g fs ts) ∧ NodupGraph (foldSegment g fs ts) ∧
      sumConnections (foldSegment g fs ts) =
        2 * unorderedPairCount (foldSegment g fs ts) := by
  unfold foldSegment
  match fs, ts with
  | some f, some t =>
    simp only
    split
    · exact ⟨addConnection_sym h.1 _ _, nodup_addConnection h.2.1 _ _,
        addConnection_sum_upc h.1 h.2.1 (hne f t rfl rfl) h.2.2⟩
    · exact h
  | some f, none => exact h
  | none, some t => exact h
  | none, none => exact h

lemma ngAdj_sortValues (g : NameGraph) (n : String) :
    ngAdj (sortGraphValues g) n = pySortStrings (ngAdj g n) := by
  unfold ngAdj
  rw [ngFind_sortValues]
  cases h : ngFind g n
  · simp [pySortStrings]
  · simp

lemma sortValues_sym {g : NameGraph} (hsym : SymGraph g) :
    SymGraph (sortGraphValues g) := by
  intro x y hy
  rw [ngAdj_sortValues] at hy
  have hy2 : y ∈ ngAdj g x :=
    (List.perm_insertionSort _ _).mem_iff.mp hy
  rcases hsym x y hy2 with ⟨hx, hyk, hxy⟩
  have hmemeq : ∀ z, ngMem (sortGraphValues g) z = ngMem g z := by
    intro z
    unfold ngMem
    rw [ngFind_sortValues]
    cases h : ngFind g z <;> simp
  refine ⟨by rw [hmemeq]; exact hx, by rw [hmemeq]; exact hyk, ?_⟩
  rw [ngAdj_sortValues]
  exact (List.perm_insertionSort _ _).mem_iff.mpr hxy

lemma sortValues_nodup {g : NameGraph} (hnd : NodupGraph g) :
    NodupGraph (sortGraphValues g) := by
  constructor
  · unfold sortGraphValues
    rw [List.map_map]
    exact hnd.1
  · intro p hp
    rcases List.mem_map.mp hp with ⟨q, hq, hfq⟩
    subst hfq
    exact (List.perm_insertionSort _ _).nodup_iff.mpr (hnd.2 q hq)

lemma sortValues_sum (g : NameGraph) :
    sumConnections (sortGraphValues g) = sumConnections g := by
  unfold sumConnections sortGraphValues
  rw [List.map_map]
  congr 1
  apply List.map_congr_left
  intro p _
  simp only [Function.comp]
  exact (List.perm_insertionSort _ _).length_eq

lemma sortValues_upc (g : NameGraph) :
    unorderedPairCount (sortGraphValues g) = unorderedPairCount g := by
  unfold unorderedPairCount sortGraphValues
  rw [List.map_map]
  congr 1
  apply List.map_congr_left
  intro p _
  simp only [Function.comp]
  exact ((List.perm_insertionSort _ _).filter _).length_eq

lemma empty_sym : SymGraph ([] : NameGraph) := by
  intro a b hb
  simp [ngAdj, ngFind, List.find?] at hb

lemma empty_nodup : NodupGraph ([] : NameGraph) := by
  constructor
  · simp
  · intro p hp; simp at hp

lemma buildRS_sym_nodup (segs : List RouteSegment) :
    SymGraph (build_graph_from_route_segments segs) ∧
      NodupGraph (build_graph_from_route_segments segs) := by
  unfold build_graph_from_route_segments
  exact @foldl_preserve RouteSegment
    (fun g => SymGraph g ∧ NodupGraph g)
    (fun g seg => foldSegment g seg.from_station seg.to_station)
    (fun g seg hp => foldSegment_sym_nodup hp _ _)
    _ _ ⟨empty_sym, empty_nodup⟩

lemma addIS_sym_nodup (isegs : List IntersectionSegment) {g : NameGraph}
    (hg : SymGraph g ∧ NodupGraph g) :
    SymGraph (add_intersection_segments_to_graph isegs g) ∧
      NodupGraph (add_intersection_segments_to_graph isegs g) := by
  unfold add_intersection_segments_to_graph
  exact @foldl_preserve IntersectionSegment
    (fun g => SymGraph g ∧ NodupGraph g)
    (fun g seg => foldSegment g seg.from_station seg.to_station)
    (fun g seg hp => foldSegment_sym_nodup hp _ _)
    _ _ hg

lemma buildRS_counts {segs : List RouteSegment}
    (hns : ∀ seg ∈ segs, ∀ f t, seg.from_station = some f →
      seg.to_station = some t → f.name ≠ t.name) :
    SymGraph (build_graph_from_route_segments segs) ∧
      NodupGraph (build_graph_from_route_segments segs) ∧
      sumConnections (build_graph_from_route_segments segs) =
        2 * unorderedPairCount (build_graph_from_route_segments segs) := by
  unfold build_graph_from_route_segments
  refine @foldl_preserve_mem RouteSegment
    (fun g => SymGraph g ∧ NodupGraph g ∧
      sumConnections g = 2 * unorderedPairCount g)
    (fun g seg => foldSegment g seg.from_station seg.to_station)
    _ ?_ _ ⟨empty_sym, empty_nodup, by rfl⟩
  intro g seg hseg hp
  exact foldSegment_counts hp
    (fun f t hf ht => hns seg (List.mem_filter.mp hseg).1 f t hf ht)

lemma addIS_counts {isegs : List IntersectionSegment} {g : NameGraph}
    (hns : ∀ seg ∈ isegs, ∀ f t, seg.from_station = some f →
      seg.to_station = some t → f.name ≠ t.name)
    (hg : SymGraph g ∧ NodupGraph g ∧
      sumConnections g = 2 * unorderedPairCount g) :
    SymGraph (add_intersection_segments_to_graph isegs g) ∧
      NodupGraph (add_intersection_segments_to_graph isegs g) ∧
      sumConnections (add_intersection_segments_to_graph isegs g) =
        2 * unorderedPairCount (add_intersection_segments_to_graph isegs g) := by
  unfold add_intersection_segments_to_graph
  refine @foldl_preserve_mem IntersectionSegment
    (fun g => SymGraph g ∧ NodupGraph g ∧
      sumConnections g = 2 * unorderedPairCount g)
    (fun g seg => foldSegment g seg.from_station seg.to_station)
    _ ?_ _ hg
  intro g seg hseg hp
  exact foldSegment_counts hp
    (fun f t hf ht => hns seg (List.mem_filter.mp hseg).1 f t hf ht)

/-- C9 counterexample: one active route segment joining two stations that
share the display name Siam produces the graph with the single self-loop
adjacency Siam -> [Siam]: the sum of neighbor-list lengths is 1, which is
odd, and total_connections reports 0 even though one undirected connection
exists, so the even-sum and exact-count parts of the claim fail. -/
theorem C9_counterexample :
    build_graph_from_route_segments [segSiamSiam] = [("Siam", ["Siam"])] ∧
    sumConnections (build_graph_from_route_segments [segSiamSiam]) = 1 ∧
    ¬ Even (sumConnections (build_graph_from_route_segments [segSiamSiam])) ∧
    (generate_metadata (build_graph_from_route_segments [segSiamSiam]) []
      0).total_connections = 0 ∧
    "Siam" ∈ ngAdj (build_graph_from_route_segments [segSiamSiam]) "Siam" := by
  refine ⟨by decide, by decide, ?_, by decide, by decide⟩
  rw [show sumConnections (build_graph_from_route_segments [segSiamSiam]) = 1
    from by decide]
  decide

/-- C9 amended: every graph produced by build_graph_from_route_segments,
add_intersection_segments_to_graph, generate_complete_graph and
get_graph_by_line_id is symmetric (a neighbor entry forces both names to be
keys and the mirrored entry to exist) with duplicate-free keys and neighbor
lists; and provided no processed segment joins two stations of equal display
name (the self-loop case of the counterexample), the sum of neighbor-list
lengths equals twice the number of unordered adjacent pairs - hence it is
even and the metadata field total_connections counts each undirected
connection exactly once. -/
theorem C9_amended_symmetry_counts :
    (∀ (segs : List RouteSegment) (isegs : List IntersectionSegment)
      (lines : List String) (ipc : Nat) (ln : Option String),
      SymGraph (build_graph_from_route_segments segs) ∧
      SymGraph (add_intersection_segments_to_graph isegs
        (build_graph_from_route_segments segs)) ∧
      SymGraph (generate_complete_graph segs isegs lines ipc).1 ∧
      SymGraph (get_graph_by_line_id segs ln).1 ∧
      NodupGraph (generate_complete_graph segs isegs lines ipc).1) ∧
    (∀ (segs : List RouteSegment) (isegs : List IntersectionSegment)
      (lines : List String) (ipc : Nat) (ln : Option String),
      (∀ seg ∈ segs, ∀ f t, seg.from_station = some f →
        seg.to_station = some t → f.name ≠ t.name) →
      (∀ seg ∈ isegs, ∀ f t, seg.from_station = some f →
        seg.to_station = some t → f.name ≠ t.name) →
      Even (sumConnections (generate_complete_graph segs isegs lines ipc).1) ∧
      sumConnections (generate_complete_graph segs isegs lines ipc).1 =
        2 * unorderedPairCount (generate_complete_graph segs isegs lines ipc).1 ∧
      (generate_complete_graph segs isegs lines ipc).2.total_connections =
        unorderedPairCount (generate_complete_graph segs isegs lines ipc).1 ∧
      (get_graph_by_line_id segs ln).2.total_connections =
        unorderedPairCount (get_graph_by_line_id segs ln).1) := by
  constructor
  · intro segs isegs lines ipc ln
    have h1 := buildRS_sym_nodup segs
    have h2 := addIS_sym_nodup isegs h1
    exact ⟨h1.1, h2.1, sortValues_sym h2.1, sortValues_sym h1.1,
      sortValues_nodup h2.2⟩
  · intro segs isegs lines ipc ln hns hins
    have h1 := buildRS_counts hns
    have h2 := addIS_counts hins h1
    have hsum : sumConnections (generate_complete_graph segs isegs lines
        ipc).1 = 2 * unorderedPairCount (generate_complete_graph segs isegs
        lines ipc).1 := by
      show sumConnections (sortGraphValues _) = 2 * unorderedPairCount
        (sortGraphValues _)
      rw [sortValues_sum, sortValues_upc]
      exact h2.2.2
    refine ⟨⟨unorderedPairCount (generate_complete_graph segs isegs lines
      ipc).1, by rw [hsum]; ring⟩, hsum, ?_, ?_⟩
    · show (generate_metadata _ lines ipc).total_connections = _
      unfold generate_metadata
      simp only
      rw [h2.2.2, show (generate_complete_graph segs isegs lines ipc).1 =
        sortGraphValues (add_intersection_segments_to_graph isegs
          (build_graph_from_route_segments segs)) from rfl, sortValues_upc]
      exact Nat.mul_div_cancel_left _ (by norm_num)
    · show sumConnections (sortGraphValues (build_graph_from_route_segments
        segs)) / 2 = unorderedPairCount (get_graph_by_line_id segs ln).1
      rw [show (get_graph_by_line_id segs ln).1 = sortGraphValues
        (build_graph_from_route_segments segs) from rfl,
        sortValues_sum, sortValues_upc, (buildRS_counts hns).2.2]
      exact Nat.mul_div_cancel_left _ (by norm_num)

/-- C9 amended, witness: a concrete two-segment network satisfies the
even-sum and exact-count conclusions. -/
theorem C9_amended_symmetry_counts_witness :
    Even (sumConnections (generate_complete_graph
      [⟨some ⟨1, "Mo Chit"⟩, some ⟨2, "Siam"⟩, "active"⟩,
       ⟨some ⟨2, "Siam"⟩, some ⟨3, "Asok"⟩, "active"⟩] [] [] 0).1) ∧
    (generate_complete_graph
      [⟨some ⟨1, "Mo Chit"⟩, some ⟨2, "Siam"⟩, "active"⟩,
       ⟨some ⟨2, "Siam"⟩, some ⟨3, "Asok"⟩, "active"⟩] [] [] 0).2.total_connections =
      unorderedPairCount (generate_complete_graph
      [⟨some ⟨1, "Mo Chit"⟩, some ⟨2, "Siam"⟩, "active"⟩,
       ⟨some ⟨2, "Siam"⟩, some ⟨3, "Asok"⟩, "active"⟩] [] [] 0).1 := by
  have h := C9_amended_symmetry_counts.2
    [⟨some ⟨1, "Mo Chit"⟩, some ⟨2, "Siam"⟩, "active"⟩,
     ⟨some ⟨2, "Siam"⟩, some ⟨3, "Asok"⟩, "active"⟩] [] [] 0 none
    (by
      intro seg hseg f t hf ht
      rcases List.mem_cons.mp hseg with h1 | h1
      · subst h1
        cases Option.some.inj hf
        cases Option.some.inj ht
        decide
      · rcases List.mem_cons.mp h1 with h2 | h2
        · subst h2
          cases Option.some.inj hf
          cases Option.some.inj ht
          decide
        · simp at h2)
    (by intro seg hseg; simp at hseg)
  exact ⟨h.1, h.2.2.1⟩

lemma addConnection_edge_in {g : NameGraph} (hsym : SymGraph g)
    (a b : String) :
    b ∈ ngAdj (addConnection g a b) a ∧
      a ∈ ngAdj (addConnection g a b) b := by
  have h1 : b ∈ ngAdj (addConnection g a b) a := by
    rw [addConnection_edge_iff hsym]
    by_cases c1 : b ∈ ngAdj g a
    · exact Or.inl c1
    · exact Or.inr ⟨c1, Or.inl ⟨rfl, rfl⟩⟩
  exact ⟨h1, ((addConnection_sym hsym a b) a b h1).2.2⟩

lemma ngAdj_nodup {g : NameGraph} (hnd : NodupGraph g) (n : String) :
    (ngAdj g n).Nodup := by
  unfold ngAdj ngFind
  cases h : g.find? (fun p => decide (p.1 = n)) with
  | none => simp
  | some p => simpa using hnd.2 p (List.mem_of_find?_eq_some h)

/-- C7: building the exporter graph from an edge and its explicit reverse, or
from the same edge twice, yields each neighbor exactly once in each of the
two lists; and every neighbor list of the graph returned by
generate_complete_graph is sorted in code-point lexicographic order. -/
theorem C7_dedup_and_sorted :
    (∀ s1 s2 s3 s4 : Station,
      s1.name ≠ s2.name →
      is_real_station_name s1.name = true →
      is_real_station_name s2.name = true →
      s3.name = s2.name → s4.name = s1.name →
      (ngAdj (build_graph_from_route_segments
        [⟨some s1, some s2, "active"⟩, ⟨some s3, some s4, "active"⟩])
        s1.name).count s2.name = 1 ∧
      (ngAdj (build_graph_from_route_segments
        [⟨some s1, some s2, "active"⟩, ⟨some s3, some s4, "active"⟩])
        s2.name).count s1.name = 1) ∧
    (∀ s1 s2 : Station,
      s1.name ≠ s2.name →
      is_real_station_name s1.name = true →
      is_real_station_name s2.name = true →
      (ngAdj (build_graph_from_route_segments
        [⟨some s1, some s2, "active"⟩, ⟨some s1, some s2, "active"⟩])
        s1.name).count s2.name = 1 ∧
      (ngAdj (build_graph_from_route_segments
        [⟨some s1, some s2, "active"⟩, ⟨some s1, some s2, "active"⟩])
        s2.name).count s1.name = 1) ∧
    (∀ (segs : List RouteSegment) (isegs : List IntersectionSegment)
      (lines : List String) (ipc : Nat),
      ∀ p ∈ (generate_complete_graph segs isegs lines ipc).1,
        List.Pairwise (fun x y : String => x.data ≤ y.data) p.2) := by
  refine ⟨?_, ?_, ?_⟩
  · intro s1 s2 s3 s4 hne hr1 hr2 h3 h4
    have hfold : build_graph_from_route_segments
        [⟨some s1, some s2, "active"⟩, ⟨some s3, some s4, "active"⟩] =
        addConnection (addConnection [] s1.name s2.name) s3.name s4.name := by
      unfold build_graph_from_route_segments foldSegment
      simp [List.filter, List.foldl, hr1, hr2, h3, h4]
    have hsym1 := addConnection_sym empty_sym s1.name s2.name
    have hnd2 := nodup_addConnection
      (nodup_addConnection empty_nodup s1.name s2.name) s3.name s4.name
    have he1 := addConnection_edge_in empty_sym s1.name s2.name
    have hm1 : s2.name ∈ ngAdj (addConnection (addConnection []
        s1.name s2.name) s3.name s4.name) s1.name := by
      rw [addConnection_edge_iff hsym1]
      exact Or.inl he1.1
    have hm2 := ((addConnection_sym hsym1 s3.name s4.name) _ _ hm1).2.2
    rw [hfold]
    exact ⟨List.count_eq_one_of_mem (ngAdj_nodup hnd2 _) hm1,
      List.count_eq_one_of_mem (ngAdj_nodup hnd2 _) hm2⟩
  · intro s1 s2 hne hr1 hr2
    have hfold : build_graph_from_route_segments
        [⟨some s1, some s2, "active"⟩, ⟨some s1, some s2, "active"⟩] =
        addConnection (addConnection [] s1.name s2.name) s1.name s2.name := by
      unfold build_graph_from_route_segments foldSegment
      simp [List.filter, List.foldl, hr1, hr2]
    have hsym1 := addConnection_sym empty_sym s1.name s2.name
    have hnd2 := nodup_addConnection
      (nodup_addConnection empty_nodup s1.name s2.name) s1.name s2.name
    have he1 := addConnection_edge_in empty_sym s1.name s2.name
    have hm1 : s2.name ∈ ngAdj (addConnection (addConnection []
        s1.name s2.name) s1.name s2.name) s1.name := by
      rw [addConnection_edge_iff hsym1]
      exact Or.inl he1.1
    have hm2 := ((addConnection_sym hsym1 s1.name s2.name) _ _ hm1).2.2
    rw [hfold]
    exact ⟨List.count_eq_one_of_mem (ngAdj_nodup hnd2 _) hm1,
      List.count_eq_one_of_mem (ngAdj_nodup hnd2 _) hm2⟩
  · intro segs isegs lines ipc p hp
    have hp2 : p ∈ sortGraphValues (add_intersection_segments_to_graph isegs
        (build_graph_from_route_segments segs)) := hp
    rcases List.mem_map.mp hp2 with ⟨q, _, hfq⟩
    subst hfq
    show List.Sorted (fun x y : String => x.data ≤ y.data)
      (List.insertionSort (fun a b => a.data ≤ b.data) q.2)
    exact @List.sorted_insertionSort String (fun a b => a.data ≤ b.data)
      (fun a b => inferInstance)
      ⟨fun a b => le_total a.data b.data⟩
      ⟨fun a b c hab hbc => le_trans hab hbc⟩ q.2

/-- C7 witness: a concrete reverse-duplicate pair of segments between Asok
and Siam yields each name exactly once in the other's list, and the complete
graph of that network has sorted neighbor lists. -/
theorem C7_dedup_and_sorted_witness :
    (ngAdj (build_graph_from_route_segments
      [⟨some ⟨1, "Asok"⟩, some ⟨2, "Siam"⟩, "active"⟩,
       ⟨some ⟨2, "Siam"⟩, some ⟨1, "Asok"⟩, "active"⟩]) "Asok").count
      "Siam" = 1 ∧
    (ngAdj (build_graph_from_route_segments
      [⟨some ⟨1, "Asok"⟩, some ⟨2, "Siam"⟩, "active"⟩,
       ⟨some ⟨2, "Siam"⟩, some ⟨1, "Asok"⟩, "active"⟩]) "Siam").count
      "Asok" = 1 :=
  C7_dedup_and_sorted.1 ⟨1, "Asok"⟩ ⟨2, "Siam"⟩ ⟨2, "Siam"⟩ ⟨1, "Asok"⟩
    (by decide) (by decide) (by decide) rfl rfl

lemma walk_ne_nil {g : Graph} {s : Nat} {p : List Nat} {b : Nat} {c : ℚ}
    (h : Walk g s p b c) : p ≠ [] := by
  cases h with
  | nil => simp
  | snoc hw hs => simp

lemma walk_getLast {g : Graph} {s : Nat} {p : List Nat} {b : Nat} {c : ℚ}
    (h : Walk g s p b c) : p.getLast? = some b := by
  cases h with
  | nil => rfl
  | snoc hw hs => simp [List.getLast?_append]

lemma walk_end_mem {g : Graph} {s : Nat} {p : List Nat} {b : Nat} {c : ℚ}
    (h : Walk g s p b c) : b ∈ p := by
  cases h with
  | nil => simp
  | snoc hw hs => simp

lemma walk_start_mem {g : Graph} {s : Nat} {p : List Nat} {b : Nat} {c : ℚ}
    (h : Walk g s p b c) : s ∈ p := by
  induction h with
  | nil => simp
  | snoc hw hs ih => exact List.mem_append_left _ ih

lemma walk_length_one {g : Graph} {s : Nat} {p : List Nat} {b : Nat} {c : ℚ}
    (h : Walk g s p b c) (hl : p.length = 1) : s = b ∧ c = 0 ∧ p = [s] := by
  cases h with
  | nil => exact ⟨rfl, rfl, rfl⟩
  | snoc hw hs =>
    rw [List.length_append] at hl
    simp at hl
    exact absurd hl (walk_ne_nil hw)

lemma walk_singleton {g : Graph} {s x b : Nat} {c : ℚ}
    (h : Walk g s [x] b c) : s = x ∧ b = x ∧ c = 0 := by
  rcases walk_length_one h rfl with ⟨hsb, hc, hp⟩
  have hxs : x = s := by simpa using hp
  exact ⟨hxs.symm, hsb.symm.trans hxs.symm, hc⟩

lemma walk_append {g : Graph} {s : Nat} {p : List Nat} {b : Nat} {c1 : ℚ}
    (h1 : Walk g s p b c1) :
    ∀ {q : List Nat} {z : Nat} {c2 : ℚ}, Walk g b q z c2 →
      Walk g s (p ++ q.tail) z (c1 + c2) := by
  intro q z c2 h2
  induction h2 with
  | nil => simpa using h1
  | snoc hw hs ih =>
    rename_i p2 b2 z2 w2 c2a
    have hne := walk_ne_nil hw
    have htail : (p2 ++ [z2]).tail = p2.tail ++ [z2] := by
      cases p2 with
      | nil => exact absurd rfl hne
      | cons x xs => simp
    rw [htail, ← List.append_assoc, ← add_assoc]
    exact Walk.snoc ih hs

lemma walk_cons_view {g : Graph} {s : Nat} {p : List Nat} {b : Nat} {c : ℚ}
    (h : Walk g s p b c) :
    (p = [s] ∧ b = s ∧ c = 0) ∨
      ∃ y w q c2, isStep g s y w ∧ Walk g y (y :: q) b c2 ∧
        p = s :: y :: q ∧ c = w + c2 := by
  induction h with
  | nil => exact Or.inl ⟨rfl, rfl, rfl⟩
  | snoc hw hs ih =>
    rename_i p2 b2 z2 w2 c2a
    rcases ih with ⟨hp2, hb2, hc2⟩ | ⟨y, w1, q1, c2b, hstep, hwq, hpq, hcq⟩
    · subst hb2
      refine Or.inr ⟨z2, w2, [], 0, hs, Walk.nil, ?_, ?_⟩
      · rw [hp2]
        rfl
      · rw [hc2]
        ring
    · refine Or.inr ⟨y, w1, q1 ++ [z2], c2b + w2, hstep,
        Walk.snoc hwq hs, ?_, ?_⟩
      · rw [hpq]
        rfl
      · rw [hcq]
        ring

lemma walk_split_last {g : Graph} {s : Nat} {q : List Nat} {z : Nat} {c : ℚ}
    (h : Walk g s q z c) {n : Nat} (hn : n ∈ q) :
    ∃ q1 c1 q2 c2, Walk g s q1 n c1 ∧ Walk g n q2 z c2 ∧
      q = q1 ++ q2.tail ∧ c = c1 + c2 ∧ n ∉ q2.tail := by
  induction h with
  | nil =>
    have hns : n = s := by simpa using hn
    subst hns
    exact ⟨[n], 0, [n], 0, Walk.nil, Walk.nil, by simp, by ring, by simp⟩
  | snoc hw hs ih =>
    rename_i p2 b2 z2 w2 c2a
    by_cases hnz : n = z2
    · subst hnz
      exact ⟨p2 ++ [n], c2a + w2, [n], 0, Walk.snoc hw hs, Walk.nil,
        by simp, by ring, by simp⟩
    · have hnp : n ∈ p2 := by
        rcases List.mem_append.mp hn with h1 | h1
        · exact h1
        · simp only [List.mem_singleton] at h1
          exact absurd h1 hnz
      rcases ih hnp with ⟨q1, c1, q2, c2, hw1, hw2, heq, hceq, hnt⟩
      have hne2 := walk_ne_nil hw2
      have htail : (q2 ++ [z2]).tail = q2.tail ++ [z2] := by
        cases q2 with
        | nil => exact absurd rfl hne2
        | cons x xs => simp
      refine ⟨q1, c1, q2 ++ [z2], c2 + w2, hw1, Walk.snoc hw2 hs, ?_, ?_, ?_⟩
      · rw [htail, heq, List.append_assoc]
      · rw [hceq]
        ring
      · rw [htail]
        simp only [List.mem_append, List.mem_singleton]
        exact fun hc => hc.elim hnt hnz

lemma walk_nonneg {g : Graph} (hNN : NonnegG g) {s : Nat} {p : List Nat}
    {b : Nat} {c : ℚ} (h : Walk g s p b c) : 0 ≤ c := by
  induction h with
  | nil => exact le_refl 0
  | snoc hw hs ih =>
    have := hNN _ _ _ hs
    linarith

lemma walk_decompose {g : Graph} (hNN : NonnegG g) {visited : List Nat}
    {s : Nat} {q : List Nat} {z : Nat} {c : ℚ} (h : Walk g s q z c)
    (hv : ∃ v ∈ q, v ∉ visited) :
    ∃ q1 y c1, Walk g s q1 y c1 ∧ (∀ v ∈ q1.dropLast, v ∈ visited) ∧
      y ∉ visited ∧ c1 ≤ c := by
  induction h with
  | nil =>
    rcases hv with ⟨v, hvq, hvv⟩
    have hvs : v = s := by simpa using hvq
    subst hvs
    exact ⟨[v], v, 0, Walk.nil, by simp, hvv, le_refl 0⟩
  | snoc hw hs ih =>
    rename_i p2 b2 z2 w2 c2a
    have hw2 : 0 ≤ w2 := hNN _ _ _ hs
    by_cases hall : ∀ v ∈ p2, v ∈ visited
    · rcases hv with ⟨v, hvq, hvv⟩
      have hvz : v = z2 := by
        rcases List.mem_append.mp hvq with h1 | h1
        · exact absurd (hall v h1) hvv
        · simpa using h1
      subst hvz
      refine ⟨p2 ++ [v], v, c2a + w2, Walk.snoc hw hs, ?_, hvv, le_refl _⟩
      rw [List.dropLast_concat]
      exact hall
    · push_neg at hall
      rcases hall with ⟨v, hvp, hvv⟩
      rcases ih ⟨v, hvp, hvv⟩ with ⟨q1, y, c1, hwq, hvis, hyv, hle⟩
      exact ⟨q1, y, c1, hwq, hvis, hyv, by linarith⟩

lemma filter_length_mono {l : List Nat} {p q : Nat → Bool}
    (h : ∀ x, q x = true → p x = true) :
    (l.filter q).length ≤ (l.filter p).length := by
  induction l with
  | nil => simp
  | cons x xs ih =>
    simp only [List.filter]
    cases hq : q x with
    | true =>
      rw [h x hq]
      simpa using ih
    | false =>
      cases hp : p x with
      | true => simpa using Nat.le_succ_of_le ih
      | false => exact ih

lemma filter_length_strict {l : List Nat} {p q : Nat → Bool} {k : Nat}
    (hk : k ∈ l) (hpk : p k = true) (hqk : q k = false)
    (h : ∀ x, q x = true → p x = true) :
    (l.filter q).length < (l.filter p).length := by
  induction l with
  | nil => simp at hk
  | cons x xs ih =>
    rcases List.mem_cons.mp hk with hxk | hxs
    · subst hxk
      simp only [List.filter, hpk, hqk]
      simpa using Nat.lt_succ_of_le (filter_length_mono h)
    · simp only [List.filter]
      cases hq : q x with
      | true =>
        rw [h x hq]
        simpa using ih hxs
      | false =>
        cases hp : p x with
        | true => simpa using Nat.lt_succ_of_le (le_of_lt (ih hxs))
        | false => exact ih hxs

lemma graphFind_key_mem {g : Graph} {n : Nat} {adj : List Adj}
    (h : graphFind g n = some adj) : n ∈ graphKeys g ∧ ∃ p ∈ g, p.2 = adj := by
  unfold graphFind at h
  cases hf : g.find? (fun p => decide (p.1 = n)) with
  | none => rw [hf] at h; simp at h
  | some p =>
    rw [hf] at h
    simp only [Option.some.injEq] at h
    have hpn : p.1 = n := by simpa using List.find?_some hf
    have hmem := List.mem_of_find?_eq_some hf
    exact ⟨hpn ▸ List.mem_map_of_mem _ hmem, p, hmem, h⟩

lemma adj_le_edgeCount {g : Graph} {n : Nat} {adj : List Adj}
    (h : graphFind g n = some adj) : adj.length ≤ graphEdgeCount g := by
  rcases (graphFind_key_mem h).2 with ⟨p, hp, hpa⟩
  unfold graphEdgeCount
  have : p.2.length ∈ g.map (fun q => q.2.length) :=
    List.mem_map_of_mem _ hp
  exact hpa ▸ List.single_le_sum (fun x _ => Nat.zero_le x) _ this

lemma dMeasure_skip {g : Graph} {pq : List Entry} {visited : List Nat}
    {e : Entry} (he : e ∈ pq) :
    dMeasure g (pq.erase e) visited < dMeasure g pq visited := by
  unfold dMeasure
  rw [List.length_erase_of_mem he]
  have h1 : 1 ≤ pq.length := List.length_pos.mpr (List.ne_nil_of_mem he)
  omega

lemma dMeasure_visit_le {g : Graph} {pq : List Entry} {visited : List Nat}
    {e : Entry} (he : e ∈ pq) (n : Nat) :
    dMeasure g (pq.erase e) (visited ++ [n]) < dMeasure g pq visited := by
  unfold dMeasure
  rw [List.length_erase_of_mem he]
  have h1 : 1 ≤ pq.length := List.length_pos.mpr (List.ne_nil_of_mem he)
  have h2 : ((graphKeys g).filter
      (fun k => decide (k ∉ visited ++ [n]))).length ≤
      ((graphKeys g).filter (fun k => decide (k ∉ visited))).length := by
    apply filter_length_mono
    intro x hx
    simp only [decide_eq_true_eq] at hx ⊢
    intro hc
    exact hx (List.mem_append_left _ hc)
  have h3 := Nat.mul_le_mul_right (graphEdgeCount g + 1) h2
  omega

lemma dMeasure_push {g : Graph} {pq : List Entry} {visited : List Nat}
    {e : Entry} {adj : List Adj} (he : e ∈ pq)
    (hnv : e.2.2.1 ∉ visited) (hadj : graphFind g e.2.2.1 = some adj)
    (pushes : List Entry) (hlen : pushes.length ≤ adj.length) :
    dMeasure g (pq.erase e ++ pushes) (visited ++ [e.2.2.1]) <
      dMeasure g pq visited := by
  unfold dMeasure
  rw [List.length_append, List.length_erase_of_mem he]
  have h1 : 1 ≤ pq.length := List.length_pos.mpr (List.ne_nil_of_mem he)
  have hE : pushes.length ≤ graphEdgeCount g :=
    le_trans hlen (adj_le_edgeCount hadj)
  have h2 : ((graphKeys g).filter
      (fun k => decide (k ∉ visited ++ [e.2.2.1]))).length <
      ((graphKeys g).filter (fun k => decide (k ∉ visited))).length := by
    apply filter_length_strict (graphFind_key_mem hadj).1
    · simpa using hnv
    · simp
    · intro x hx
      simp only [decide_eq_true_eq] at hx ⊢
      intro hc
      exact hx (List.mem_append_left _ hc)
  have h3 : (((graphKeys g).filter
      (fun k => decide (k ∉ visited ++ [e.2.2.1]))).length + 1) *
      (graphEdgeCount g + 1) ≤
      ((graphKeys g).filter (fun k => decide (k ∉ visited))).length *
      (graphEdgeCount g + 1) :=
    Nat.mul_le_mul_right _ h2
  rw [Nat.add_mul, Nat.one_mul] at h3
  omega

lemma mem_dropLast_or_last {l : List Nat} {b : Nat}
    (hl : l.getLast? = some b) : ∀ v ∈ l, v ∈ l.dropLast ∨ v = b := by
  have hne : l ≠ [] := by
    intro h
    rw [h] at hl
    simp at hl
  intro v hv
  have hsplit := List.dropLast_append_getLast hne
  have hlast : l.getLast hne = b := by
    rw [List.getLast?_eq_getLast l hne] at hl
    simpa using hl
  rw [← hsplit] at hv
  rcases List.mem_append.mp hv with h1 | h1
  · exact Or.inl h1
  · simp only [List.mem_singleton] at h1
    exact Or.inr (h1.trans hlast)

lemma entriesOK_erase {g : Graph} {s : Nat} {pq : List Entry}
    {visited : List Nat} (h : EntriesOK g s pq visited) (e : Entry) :
    EntriesOK g s (pq.erase e) visited :=
  fun x hx => h x (List.erase_subset _ _ hx)

lemma entriesOK_mono {g : Graph} {s : Nat} {pq : List Entry}
    {v1 v2 : List Nat} (h : EntriesOK g s pq v1)
    (hsub : ∀ x ∈ v1, x ∈ v2) : EntriesOK g s pq v2 :=
  fun x hx => ⟨(h x hx).1, fun v hv => hsub v ((h x hx).2 v hv)⟩

lemma entriesOK_append {g : Graph} {s : Nat} {pq1 pq2 : List Entry}
    {visited : List Nat} (h1 : EntriesOK g s pq1 visited)
    (h2 : EntriesOK g s pq2 visited) :
    EntriesOK g s (pq1 ++ pq2) visited := by
  intro x hx
  rcases List.mem_append.mp hx with h | h
  · exact h1 x h
  · exact h2 x h

lemma entriesOK_pushes {g : Graph} {s : Nat} {pq : List Entry}
    {visited : List Nat} {e : Entry} {adj : List Adj}
    (hE : EntriesOK g s pq visited) (he : e ∈ pq)
    (hadj : graphFind g e.2.2.1 = some adj) :
    EntriesOK g s
      ((adj.filter (fun a => decide (a.1 ∉ visited ++ [e.2.2.1]))).map
        (fun a => (e.1 + a.2.1, e.2.1 + a.2.2, a.1, e.2.2.2 ++ [a.1])))
      (visited ++ [e.2.2.1]) := by
  intro x hx
  rcases List.mem_map.mp hx with ⟨a, ha, hxa⟩
  have haadj : a ∈ adj := List.mem_of_mem_filter ha
  rcases hE e he with ⟨hw, hdl⟩
  have hstep : isStep g e.2.2.1 a.1 a.2.1 :=
    ⟨adj, a.2.2, hadj, by simpa using haadj⟩
  subst hxa
  refine ⟨Walk.snoc hw hstep, ?_⟩
  simp only [List.dropLast_concat]
  intro v hv
  rcases mem_dropLast_or_last (walk_getLast hw) v hv with h | h
  · exact List.mem_append_left _ (hdl v h)
  · rw [h]
    simp

lemma pop_opt {g : Graph} {s : Nat} {pq : List Entry} {visited : List Nat}
    {e : Entry} (hNN : NonnegG g) (hF : FrontierOK g s pq visited)
    (hfm : findMin pq = some e) (hnv : e.2.2.1 ∉ visited) :
    ∀ q c, Walk g s q e.2.2.1 c → e.1 ≤ c := by
  intro q c hw
  have hnq : e.2.2.1 ∈ q := walk_end_mem hw
  rcases walk_decompose hNN hw ⟨e.2.2.1, hnq, hnv⟩ with
    ⟨q1, y, c1, hw1, hvis, hyv, hle⟩
  rcases hF q1 y c1 hw1 hyv hvis with ⟨x, hxq, hxy, hxc⟩
  have := findMin_dist_le hfm x hxq
  linarith

lemma frontierOK_skip {g : Graph} {s : Nat} {pq : List Entry}
    {visited : List Nat} {e : Entry} (hF : FrontierOK g s pq visited)
    (hv : e.2.2.1 ∈ visited) :
    FrontierOK g s (pq.erase e) visited := by
  intro q z c hw hz hdl
  rcases hF q z c hw hz hdl with ⟨x, hxq, hxz, hxc⟩
  have hxe : x ≠ e := by
    intro hc
    rw [hc] at hxz
    exact hz (hxz ▸ hv)
  exact ⟨x, (List.mem_erase_of_ne hxe).mpr hxq, hxz, hxc⟩

lemma visitedOK_visit {g : Graph} {s : Nat} {pq : List Entry}
    {visited : List Nat} {e : Entry} (hNN : NonnegG g)
    (hE : EntriesOK g s pq visited) (hF : FrontierOK g s pq visited)
    (hV : VisitedOK g s visited) (hfm : findMin pq = some e)
    (hnv : e.2.2.1 ∉ visited) :
    VisitedOK g s (visited ++ [e.2.2.1]) := by
  intro v hv
  rcases List.mem_append.mp hv with h | h
  · rcases hV v h with ⟨p, c, hw, hall, hopt⟩
    exact ⟨p, c, hw, fun x hx => List.mem_append_left _ (hall x hx), hopt⟩
  · simp only [List.mem_singleton] at h
    subst h
    rcases hE e (findMin_mem hfm) with ⟨hw, hdl⟩
    refine ⟨e.2.2.2, e.1, hw, ?_, pop_opt hNN hF hfm hnv⟩
    intro x hx
    rcases mem_dropLast_or_last (walk_getLast hw) x hx with h1 | h1
    · exact List.mem_append_left _ (hdl x h1)
    · rw [h1]
      simp

lemma frontierOK_nokey {g : Graph} {s : Nat} {pq : List Entry}
    {visited : List Nat} {e : Entry} (hF : FrontierOK g s pq visited)
    (hadj : graphFind g e.2.2.1 = none) :
    FrontierOK g s (pq.erase e) (visited ++ [e.2.2.1]) := by
  intro q z c hw hz hdl
  have hzv : z ∉ visited := fun hc => hz (List.mem_append_left _ hc)
  have hzn : z ≠ e.2.2.1 := by
    intro hc
    exact hz (by rw [hc]; simp)
  have hint : ∀ v ∈ q.dropLast, v ∈ visited := by
    intro v hv
    rcases List.mem_append.mp (hdl v hv) with h1 | h1
    · exact h1
    · simp only [List.mem_singleton] at h1
      exfalso
      have hnq : e.2.2.1 ∈ q := (List.dropLast_sublist q).subset (h1 ▸ hv)
      rcases walk_split_last hw hnq with
        ⟨q1, c1, q2, c2, hw1, hw2, heq2, hceq2, hnt2⟩
      rcases walk_cons_view hw2 with ⟨hq2a, hz2, hc2a⟩ |
        ⟨y, w1, q3, c3, hstep, hwy, hq2a, hc2a⟩
      · exact hzn hz2
      · rcases hstep with ⟨adjl, t1, hfind, hmem1⟩
        rw [hadj] at hfind
        exact Option.noConfusion hfind
  rcases hF q z c hw hzv hint with ⟨x, hxq, hxz, hxc⟩
  have hxe : x ≠ e := by
    intro hc
    rw [hc] at hxz
    exact hzn hxz.symm
  exact ⟨x, (List.mem_erase_of_ne hxe).mpr hxq, hxz, hxc⟩

lemma frontierOK_push {g : Graph} {s : Nat} {pq : List Entry}
    {visited : List Nat} {e : Entry} {adj : List Adj} (hNN : NonnegG g)
    (hF : FrontierOK g s pq visited) (hV : VisitedOK g s visited)
    (hfm : findMin pq = some e) (hnv : e.2.2.1 ∉ visited)
    (hadj : graphFind g e.2.2.1 = some adj) :
    FrontierOK g s
      (pq.erase e ++
        (adj.filter (fun a => decide (a.1 ∉ visited ++ [e.2.2.1]))).map
          (fun a => (e.1 + a.2.1, e.2.1 + a.2.2, a.1, e.2.2.2 ++ [a.1])))
      (visited ++ [e.2.2.1]) := by
  intro q z c hw hz hdl
  have hzv : z ∉ visited := fun hc => hz (List.mem_append_left _ hc)
  have hzn : z ≠ e.2.2.1 := by
    intro hc
    exact hz (by rw [hc]; simp)
  by_cases hnq : e.2.2.1 ∈ q.dropLast
  · have hnq2 : e.2.2.1 ∈ q := (List.dropLast_sublist q).subset hnq
    rcases walk_split_last hw hnq2 with
      ⟨q1, c1, q2, c2, hw1, hw2, heq, hceq, hnt⟩
    have hd : e.1 ≤ c1 := pop_opt hNN hF hfm hnv q1 c1 hw1
    rcases walk_cons_view hw2 with ⟨hq2a, hz2, hc2a⟩ |
      ⟨y, w1, q3, c3, hstep, hwy, hq2a, hc2a⟩
    · exact absurd hz2 hzn
    · rcases hstep with ⟨adjl, t1, hfind, hmem⟩
      rw [hadj] at hfind
      have hadjl : adj = adjl := by simpa using hfind
      subst hadjl
      cases hq3 : q3 with
      | nil =>
        rw [hq3] at hwy
        rcases walk_singleton hwy with ⟨hyy, hzy, hc3⟩
        refine ⟨(e.1 + w1, e.2.1 + t1, y, e.2.2.2 ++ [y]),
          List.mem_append_right _ ?_, hzy.symm, ?_⟩
        · have hfil : ((y, w1, t1) : Adj) ∈
              List.filter (fun a => decide (a.1 ∉ visited ++ [e.2.2.1])) adj := by
            rw [List.mem_filter]
            refine ⟨hmem, ?_⟩
            simp only [decide_eq_true_eq]
            rw [← hzy]
            exact hz
          exact List.mem_map_of_mem _ hfil
        · show e.1 + w1 ≤ c
          rw [hceq, hc2a, hc3]
          linarith
      | cons q3h q3t =>
        have hyvis : y ∈ visited := by
          have hyq : y ∈ q.dropLast := by
            rw [heq, hq2a, hq3]
            simp only [List.tail_cons]
            rw [List.dropLast_append_of_ne_nil _ (by simp)]
            simp
          rcases List.mem_append.mp (hdl y hyq) with h1 | h1
          · exact h1
          · simp only [List.mem_singleton] at h1
            exfalso
            apply hnt
            rw [hq2a, ← h1]
            simp
        rcases hV y hyvis with ⟨py, cy, hwy2, hally, hopty⟩
        have hW : Walk g s (py ++ (y :: q3).tail) z (cy + c3) :=
          walk_append hwy2 hwy
        rw [hq3] at hW
        simp only [List.tail_cons] at hW
        have hint : ∀ v ∈ (py ++ q3h :: q3t).dropLast, v ∈ visited := by
          intro v hv
          rw [List.dropLast_append_of_ne_nil _ (by simp)] at hv
          rcases List.mem_append.mp hv with h1 | h1
          · exact hally v h1
          · have hvq : v ∈ q.dropLast := by
              rw [heq, hq2a, hq3]
              simp only [List.tail_cons]
              rw [List.dropLast_append_of_ne_nil _ (by simp)]
              refine List.mem_append_right _ ?_
              rw [List.dropLast_cons_of_ne_nil (by simp)]
              exact List.mem_cons_of_mem _ h1
            rcases List.mem_append.mp (hdl v hvq) with h2 | h2
            · exact h2
            · simp only [List.mem_singleton] at h2
              exfalso
              apply hnt
              rw [hq2a, hq3, ← h2]
              simp only [List.tail_cons]
              exact List.mem_cons_of_mem _
                ((List.dropLast_sublist (q3h :: q3t)).subset h1)
        rcases hF _ z (cy + c3) hW hzv hint with ⟨x, hxq, hxz, hxc⟩
        have hxe : x ≠ e := by
          intro hc
          rw [hc] at hxz
          exact hzn hxz.symm
        refine ⟨x, List.mem_append_left _
          ((List.mem_erase_of_ne hxe).mpr hxq), hxz, ?_⟩
        have hcy : cy ≤ c1 + w1 :=
          hopty _ _ (Walk.snoc hw1 ⟨adj, t1, hadj, hmem⟩)
        have hc3nn : 0 ≤ c3 := walk_nonneg hNN hwy
        rw [hceq, hc2a]
        linarith
  · have hint : ∀ v ∈ q.dropLast, v ∈ visited := by
      intro v hv
      rcases List.mem_append.mp (hdl v hv) with h1 | h1
      · exact h1
      · simp only [List.mem_singleton] at h1
        exact absurd (h1 ▸ hv) hnq
    rcases hF q z c hw hzv hint with ⟨x, hxq, hxz, hxc⟩
    have hxe : x ≠ e := by
      intro hc
      rw [hc] at hxz
      exact hzn hxz.symm
    exact ⟨x, List.mem_append_left _
      ((List.mem_erase_of_ne hxe).mpr hxq), hxz, hxc⟩

lemma closureOK_skip {g : Graph} {pq : List Entry} {visited : List Nat}
    {e : Entry} (hC : ClosureOK g pq visited) (hv : e.2.2.1 ∈ visited) :
    ClosureOK g (pq.erase e) visited := by
  intro a b w ha hstep
  rcases hC a b w ha hstep with h | ⟨x, hx, hxb⟩
  · exact Or.inl h
  · by_cases hxe : x = e
    · subst hxe
      exact Or.inl (hxb ▸ hv)
    · exact Or.inr ⟨x, (List.mem_erase_of_ne hxe).mpr hx, hxb⟩

lemma closureOK_nokey {g : Graph} {pq : List Entry} {visited : List Nat}
    {e : Entry} (hC : ClosureOK g pq visited)
    (hadj : graphFind g e.2.2.1 = none) :
    ClosureOK g (pq.erase e) (visited ++ [e.2.2.1]) := by
  intro a b w ha hstep
  rcases List.mem_append.mp ha with h | h
  · rcases hC a b w h hstep with h1 | ⟨x, hx, hxb⟩
    · exact Or.inl (List.mem_append_left _ h1)
    · by_cases hxe : x = e
      · subst hxe
        exact Or.inl (by rw [← hxb]; simp)
      · exact Or.inr ⟨x, (List.mem_erase_of_ne hxe).mpr hx, hxb⟩
  · simp only [List.mem_singleton] at h
    subst h
    rcases hstep with ⟨adjl, t1, hfind, hmem⟩
    rw [hadj] at hfind
    exact Option.noConfusion hfind

lemma closureOK_push {g : Graph} {pq : List Entry} {visited : List Nat}
    {e : Entry} {adj : List Adj} (hC : ClosureOK g pq visited)
    (hadj : graphFind g e.2.2.1 = some adj) :
    ClosureOK g
      (pq.erase e ++
        (adj.filter (fun a => decide (a.1 ∉ visited ++ [e.2.2.1]))).map
          (fun a => (e.1 + a.2.1, e.2.1 + a.2.2, a.1, e.2.2.2 ++ [a.1])))
      (visited ++ [e.2.2.1]) := by
  intro a b w ha hstep
  rcases List.mem_append.mp ha with h | h
  · rcases hC a b w h hstep with h1 | ⟨x, hx, hxb⟩
    · exact Or.inl (List.mem_append_left _ h1)
    · by_cases hxe : x = e
      · subst hxe
        exact Or.inl (by rw [← hxb]; simp)
      · exact Or.inr ⟨x, List.mem_append_left _
          ((List.mem_erase_of_ne hxe).mpr hx), hxb⟩
  · simp only [List.mem_singleton] at h
    subst h
    rcases hstep with ⟨adjl, t1, hfind, hmem⟩
    rw [hadj] at hfind
    have hadjl : adj = adjl := by simpa using hfind
    subst hadjl
    by_cases hb : b ∈ visited ++ [e.2.2.1]
    · exact Or.inl hb
    · refine Or.inr ⟨(e.1 + w, e.2.1 + t1, b, e.2.2.2 ++ [b]),
        List.mem_append_right _ ?_, rfl⟩
      have hfil : ((b, w, t1) : Adj) ∈
          List.filter (fun a => decide (a.1 ∉ visited ++ [e.2.2.1])) adj := by
        rw [List.mem_filter]
        exact ⟨hmem, by simpa using hb⟩
      exact List.mem_map_of_mem _ hfil

lemma visited_closed {g : Graph} {visited : List Nat}
    (hC : ClosureOK g [] visited) {s : Nat} (hs : s ∈ visited)
    {q : List Nat} {z : Nat} {c : ℚ} (hw : Walk g s q z c) : z ∈ visited := by
  induction hw with
  | nil => exact hs
  | snoc hw2 hstep ih =>
    rcases hC _ _ _ ih hstep with h | ⟨x, hx, _⟩
    · exact h
    · simp at hx

lemma dloop_walk {g : Graph} {s endId : Nat} :
    ∀ (fuel : Nat) (pq : List Entry) (visited : List Nat),
      EntriesOK g s pq visited → ∀ {p : List Nat},
      dijkstraLoop g endId fuel pq visited = some p →
      ∃ c, Walk g s p endId c := by
  intro fuel
  induction fuel with
  | zero =>
    intro pq visited hE p hres
    simp [dijkstraLoop] at hres
  | succ fuel ih =>
    intro pq visited hE p hres
    rw [dijkstraLoop] at hres
    cases hfm : findMin pq with
    | none =>
      rw [hfm] at hres
      simp at hres
    | some e =>
      rw [hfm] at hres
      simp only at hres
      by_cases hv : e.2.2.1 ∈ visited
      · rw [if_pos hv] at hres
        exact ih _ _ (entriesOK_erase hE e) hres
      · rw [if_neg hv] at hres
        by_cases hend : e.2.2.1 = endId
        · rw [if_pos hend] at hres
          simp only [Option.some.injEq] at hres
          rcases hE e (findMin_mem hfm) with ⟨hw, _⟩
          exact ⟨e.1, by rw [← hres, ← hend]; exact hw⟩
        · rw [if_neg hend] at hres
          cases hadj : graphFind g e.2.2.1 with
          | none =>
            rw [hadj] at hres
            exact ih _ _ (entriesOK_mono (entriesOK_erase hE e)
              (fun x hx => List.mem_append_left _ hx)) hres
          | some adj =>
            rw [hadj] at hres
            exact ih _ _ (entriesOK_append
              (entriesOK_mono (entriesOK_erase hE e)
                (fun x hx => List.mem_append_left _ hx))
              (entriesOK_pushes hE (findMin_mem hfm) hadj)) hres

lemma dloop_opt {g : Graph} {s endId : Nat} (hNN : NonnegG g) :
    ∀ (fuel : Nat) (pq : List Entry) (visited : List Nat),
      EntriesOK g s pq visited → FrontierOK g s pq visited →
      VisitedOK g s visited → ∀ {p : List Nat},
      dijkstraLoop g endId fuel pq visited = some p →
      ∃ c, Walk g s p endId c ∧
        ∀ q c2, Walk g s q endId c2 → c ≤ c2 := by
  intro fuel
  induction fuel with
  | zero =>
    intro pq visited hE hF hV p hres
    simp [dijkstraLoop] at hres
  | succ fuel ih =>
    intro pq visited hE hF hV p hres
    rw [dijkstraLoop] at hres
    cases hfm : findMin pq with
    | none =>
      rw [hfm] at hres
      simp at hres
    | some e =>
      rw [hfm] at hres
      simp only at hres
      by_cases hv : e.2.2.1 ∈ visited
      · rw [if_pos hv] at hres
        exact ih _ _ (entriesOK_erase hE e) (frontierOK_skip hF hv) hV hres
      · rw [if_neg hv] at hres
        by_cases hend : e.2.2.1 = endId
        · rw [if_pos hend] at hres
          simp only [Option.some.injEq] at hres
          rcases hE e (findMin_mem hfm) with ⟨hw, _⟩
          refine ⟨e.1, by rw [← hres, ← hend]; exact hw, ?_⟩
          intro q c2 hwq
          exact pop_opt hNN hF hfm hv q c2 (hend ▸ hwq)
        · rw [if_neg hend] at hres
          cases hadj : graphFind g e.2.2.1 with
          | none =>
            rw [hadj] at hres
            exact ih _ _
              (entriesOK_mono (entriesOK_erase hE e)
                (fun x hx => List.mem_append_left _ hx))
              (frontierOK_nokey hF hadj)
              (visitedOK_visit hNN hE hF hV hfm hv) hres
          | some adj =>
            rw [hadj] at hres
            exact ih _ _
              (entriesOK_append
                (entriesOK_mono (entriesOK_erase hE e)
                  (fun x hx => List.mem_append_left _ hx))
                (entriesOK_pushes hE (findMin_mem hfm) hadj))
              (frontierOK_push hNN hF hV hfm hv hadj)
              (visitedOK_visit hNN hE hF hV hfm hv) hres

lemma dloop_complete {g : Graph} {s endId : Nat} {q0 : List Nat} {c0 : ℚ}
    (hwalk : Walk g s q0 endId c0) :
    ∀ (fuel : Nat) (pq : List Entry) (visited : List Nat),
      dMeasure g pq visited ≤ fuel →
      ClosureOK g pq visited →
      (s ∈ visited ∨ ∃ x ∈ pq, x.2.2.1 = s) →
      endId ∉ visited →
      dijkstraLoop g endId fuel pq visited ≠ none := by
  intro fuel
  induction fuel with
  | zero =>
    intro pq visited hmu hC hs hend
    exfalso
    have hpq : pq = [] := by
      unfold dMeasure at hmu
      have : pq.length = 0 := by omega
      exact List.length_eq_zero.mp this
    subst hpq
    have hsv : s ∈ visited := by
      rcases hs with h | ⟨x, hx, _⟩
      · exact h
      · simp at hx
    exact hend (visited_closed hC hsv hwalk)
  | succ fuel ih =>
    intro pq visited hmu hC hs hend
    rw [dijkstraLoop]
    cases hfm : findMin pq with
    | none =>
      exfalso
      have hpq : pq = [] := findMin_none_iff.mp hfm
      subst hpq
      have hsv : s ∈ visited := by
        rcases hs with h | ⟨x, hx, _⟩
        · exact h
        · simp at hx
      exact hend (visited_closed hC hsv hwalk)
    | some e =>
      simp only
      have hemem := findMin_mem hfm
      by_cases hv : e.2.2.1 ∈ visited
      · rw [if_pos hv]
        refine ih _ _ ?_ (closureOK_skip hC hv) ?_ hend
        · have := @dMeasure_skip g pq visited e hemem
          omega
        · rcases hs with h | ⟨x, hx, hxs⟩
          · exact Or.inl h
          · by_cases hxe : x = e
            · subst hxe
              exact Or.inl (hxs ▸ hv)
            · exact Or.inr ⟨x, (List.mem_erase_of_ne hxe).mpr hx, hxs⟩
      · rw [if_neg hv]
        by_cases hendq : e.2.2.1 = endId
        · rw [if_pos hendq]
          simp
        · rw [if_neg hendq]
          have hs2 : s ∈ visited ++ [e.2.2.1] ∨
              ∃ x ∈ pq.erase e, x.2.2.1 = s := by
            rcases hs with h | ⟨x, hx, hxs⟩
            · exact Or.inl (List.mem_append_left _ h)
            · by_cases hxe : x = e
              · subst hxe
                exact Or.inl (by rw [← hxs]; simp)
              · exact Or.inr ⟨x, (List.mem_erase_of_ne hxe).mpr hx, hxs⟩
          have hend2 : endId ∉ visited ++ [e.2.2.1] := by
            intro hc
            rcases List.mem_append.mp hc with h | h
            · exact hend h
            · simp only [List.mem_singleton] at h
              exact hendq h.symm
          cases hadj : graphFind g e.2.2.1 with
          | none =>
            refine ih _ _ ?_ (closureOK_nokey hC hadj) ?_ hend2
            · have := @dMeasure_visit_le g pq visited e hemem e.2.2.1
              omega
            · exact hs2
          | some adj =>
            refine ih _ _ ?_ (closureOK_push hC hadj) ?_ hend2
            · have := dMeasure_push hemem hv hadj
                ((adj.filter (fun a =>
                  decide (a.1 ∉ visited ++ [e.2.2.1]))).map
                  (fun a => (e.1 + a.2.1, e.2.1 + a.2.2, a.1,
                    e.2.2.2 ++ [a.1])))
                (by rw [List.length_map]; exact List.length_filter_le _ _)
              omega
            · rcases hs2 with h | ⟨x, hx, hxs⟩
              · exact Or.inl h
              · exact Or.inr ⟨x, List.mem_append_left _ hx, hxs⟩

lemma init_entriesOK (g : Graph) (s : Nat) :
    EntriesOK g s [(0, 0, s, [s])] [] := by
  intro e he
  simp only [List.mem_singleton] at he
  subst he
  exact ⟨Walk.nil, by simp⟩

lemma init_frontierOK (g : Graph) (s : Nat) :
    FrontierOK g s [(0, 0, s, [s])] [] := by
  intro q z c hw hz hdl
  rcases walk_cons_view hw with ⟨hq, hzs, hc⟩ | ⟨y, w1, q3, c3, _, _, hq, _⟩
  · refine ⟨(0, 0, s, [s]), by simp, ?_, ?_⟩
    · show s = z
      exact hzs.symm
    · show (0 : ℚ) ≤ c
      rw [hc]
  · exfalso
    have : s ∈ q.dropLast := by
      rw [hq, List.dropLast_cons_of_ne_nil (by simp)]
      simp
    exact absurd (hdl s this) (by simp)

lemma init_visitedOK (g : Graph) (s : Nat) : VisitedOK g s [] := by
  intro v hv
  simp at hv

lemma init_closureOK (g : Graph) (pq : List Entry) : ClosureOK g pq [] := by
  intro a b w ha
  simp at ha

lemma walk_start_key {g : Graph} {s : Nat} {q : List Nat} {z : Nat} {c : ℚ}
    (hne : s ≠ z) (hw : Walk g s q z c) : graphMem g s = true := by
  rcases walk_cons_view hw with ⟨_, hzs, _⟩ | ⟨y, w1, q3, c3, hstep, _, _, _⟩
  · exact absurd hzs.symm hne
  · rcases hstep with ⟨adjl, t1, hfind, _⟩
    unfold graphMem
    rw [hfind]
    rfl

lemma walk_end_key {g : Graph} (hWF : WFGraph g) {s : Nat} {q : List Nat}
    {z : Nat} {c : ℚ} (hne : s ≠ z) (hw : Walk g s q z c) :
    graphMem g z = true := by
  cases hw with
  | nil => exact absurd rfl hne
  | snoc hw2 hstep =>
    rcases hstep with ⟨adjl, t1, hfind, hmem⟩
    exact hWF _ _ hfind _ hmem

lemma fsp_walk {g : Graph} {s endId : Nat} {p : List Nat}
    (hres : find_shortest_path g s endId = some p) :
    ∃ c, Walk g s p endId c := by
  unfold find_shortest_path at hres
  by_cases hmem : (graphMem g s && graphMem g endId) = true
  · rw [if_pos hmem] at hres
    exact dloop_walk _ _ _ (init_entriesOK g s) hres
  · rw [if_neg hmem] at hres
    exact Option.noConfusion hres

lemma fsp_opt {g : Graph} {s endId : Nat} {p : List Nat} (hNN : NonnegG g)
    (hres : find_shortest_path g s endId = some p) :
    ∃ c, Walk g s p endId c ∧ ∀ q c2, Walk g s q endId c2 → c ≤ c2 := by
  unfold find_shortest_path at hres
  by_cases hmem : (graphMem g s && graphMem g endId) = true
  · rw [if_pos hmem] at hres
    exact dloop_opt hNN _ _ _ (init_entriesOK g s) (init_frontierOK g s)
      (init_visitedOK g s) hres
  · rw [if_neg hmem] at hres
    exact Option.noConfusion hres

lemma fsp_complete {g : Graph} (hWF : WFGraph g) {s endId : Nat}
    (hne : s ≠ endId) {q : List Nat} {c : ℚ} (hw : Walk g s q endId c) :
    find_shortest_path g s endId ≠ none := by
  unfold find_shortest_path
  have hms : graphMem g s = true := walk_start_key hne hw
  have hme : graphMem g endId = true := walk_end_key hWF hne hw
  rw [if_pos (by rw [hms, hme]; rfl)]
  exact dloop_complete hw _ _ _ (le_refl _) (init_closureOK g _)
    (Or.inr ⟨(0, 0, s, [s]), by simp, rfl⟩) (by simp)

lemma fsp_none_iff {g : Graph} (hWF : WFGraph g) {s endId : Nat}
    (hne : s ≠ endId) :
    find_shortest_path g s endId = none ↔
      ¬ ∃ q c, Walk g s q endId c := by
  constructor
  · intro hres ⟨q, c, hw⟩
    exact fsp_complete hWF hne hw hres
  · intro hnw
    cases hres : find_shortest_path g s endId with
    | none => rfl
    | some p =>
      rcases fsp_walk hres with ⟨c, hw⟩
      exact absurd ⟨p, c, hw⟩ hnw

lemma fsp_some_ne_nil {g : Graph} {s endId : Nat} {p : List Nat}
    (hres : find_shortest_path g s endId = some p) : p ≠ [] := by
  rcases fsp_walk hres with ⟨c, hw⟩
  exact walk_ne_nil hw

lemma gFind_append (g : Graph) (k : Nat) (a : Adj) (n : Nat) :
    graphFind (graphAppendAdj g k a) n =
      match graphFind g n with
      | none => none
      | some l => some (if n = k then l ++ [a] else l) := by
  induction g with
  | nil => simp [graphFind, graphAppendAdj]
  | cons p ps ih =>
    by_cases hpn : p.1 = n
    · by_cases hpk : p.1 = k
      · simp [graphFind, graphAppendAdj, List.find?, hpk,
          decide_eq_true hpn, hpn ▸ hpk]
      · have hnk : ¬ (n = k) := fun h => hpk (hpn.trans h)
        simp [graphFind, graphAppendAdj, List.find?, hpk,
          decide_eq_true hpn, hnk]
    · simp only [graphAppendAdj, List.map_cons] at ih ⊢
      simp only [graphFind, List.find?]
      by_cases hpk : p.1 = k
      · simp only [if_pos hpk, decide_eq_false hpn]
        simpa [graphFind, graphAppendAdj] using ih
      · simp only [if_neg hpk, decide_eq_false hpn]
        simpa [graphFind, graphAppendAdj] using ih

lemma gFind_concat_new (g : Graph) (k n : Nat) :
    graphFind (g ++ [(k, [])]) n =
      match graphFind g n with
      | some l => some l
      | none => if n = k then some [] else none := by
  induction g with
  | nil =>
    by_cases hnk : n = k
    · simp [graphFind, List.find?, hnk]
    · simp [graphFind, List.find?, hnk,
        show ¬ (k = n) from fun h => hnk h.symm]
  | cons p ps ih =>
    by_cases hpn : p.1 = n
    · simp [graphFind, List.find?, decide_eq_true hpn]
    · simp only [List.cons_append, graphFind, List.find?,
        decide_eq_false hpn]
      simpa [graphFind] using ih

lemma gFind_ensure (g : Graph) (k n : Nat) :
    graphFind (graphEnsure g k) n =
      match graphFind g n with
      | some l => some l
      | none => if n = k ∧ graphMem g k = false then some [] else none := by
  unfold graphEnsure
  by_cases hm : graphMem g k
  · simp only [hm, if_true]
    cases h : graphFind g n <;> simp [hm, h]
  · simp only [hm, if_false, Bool.false_eq_true]
    rw [gFind_concat_new]
    cases h : graphFind g n with
    | some l => simp
    | none =>
      have hmf : graphMem g k = false := by simpa using hm
      by_cases hnk : n = k <;> simp [hnk, hmf]

lemma gMem_append (g : Graph) (k : Nat) (a : Adj) (n : Nat) :
    graphMem (graphAppendAdj g k a) n = graphMem g n := by
  unfold graphMem
  rw [gFind_append]
  cases h : graphFind g n <;> simp

lemma gMem_ensure (g : Graph) (k n : Nat) :
    graphMem (graphEnsure g k) n = (graphMem g n || decide (n = k)) := by
  unfold graphMem
  rw [gFind_ensure]
  cases h : graphFind g n with
  | some l => simp
  | none =>
    have hm : graphMem g n = false := by unfold graphMem; simp [h]
    by_cases hnk : n = k
    · subst hnk
      simp [hm]
    · simp [hnk, hm]

lemma isArc_append {g : Graph} {k : Nat} {a : Adj} {n : Nat} {rec : Adj} :
    isArc (graphAppendAdj g k a) n rec ↔
      isArc g n rec ∨ (n = k ∧ graphMem g k = true ∧ rec = a) := by
  unfold isArc
  constructor
  · intro ⟨adj, hfind, hmem⟩
    rw [gFind_append] at hfind
    cases h : graphFind g n with
    | none => rw [h] at hfind; exact Option.noConfusion hfind
    | some l =>
      rw [h] at hfind
      simp only [Option.some.injEq] at hfind
      by_cases hnk : n = k
      · rw [if_pos hnk] at hfind
        subst hfind
        rcases List.mem_append.mp hmem with h1 | h1
        · exact Or.inl ⟨l, rfl, h1⟩
        · simp only [List.mem_singleton] at h1
          refine Or.inr ⟨hnk, ?_, h1⟩
          unfold graphMem
          rw [← hnk, h]
          rfl
      · rw [if_neg hnk] at hfind
        subst hfind
        exact Or.inl ⟨l, rfl, hmem⟩
  · intro h
    rcases h with ⟨adj, hfind, hmem⟩ | ⟨hnk, hmk, hrec⟩
    · refine ⟨if n = k then adj ++ [a] else adj, ?_, ?_⟩
      · rw [gFind_append, hfind]
      · split
        · exact List.mem_append_left _ hmem
        · exact hmem
    · subst hnk
      rcases (by unfold graphMem at hmk; cases h : graphFind g n with
        | none => rw [h] at hmk; simp at hmk
        | some l => exact ⟨l, rfl⟩ :
          ∃ l, graphFind g n = some l) with ⟨l, hl⟩
      refine ⟨l ++ [a], ?_, ?_⟩
      · rw [gFind_append, hl]
        simp
      · rw [hrec]
        simp

lemma isArc_ensure {g : Graph} {k : Nat} {n : Nat} {rec : Adj} :
    isArc (graphEnsure g k) n rec ↔ isArc g n rec := by
  unfold isArc
  constructor
  · intro ⟨adj, hfind, hmem⟩
    rw [gFind_ensure] at hfind
    cases h : graphFind g n with
    | none =>
      rw [h] at hfind
      simp only at hfind
      split at hfind
      · simp only [Option.some.injEq] at hfind
        subst hfind
        simp at hmem
      · exact Option.noConfusion hfind
    | some l =>
      rw [h] at hfind
      simp only [Option.some.injEq] at hfind
      subst hfind
      exact ⟨l, rfl, hmem⟩
  · intro ⟨adj, hfind, hmem⟩
    refine ⟨adj, ?_, hmem⟩
    rw [gFind_ensure, hfind]

lemma gMem_addRoute (acc : Graph × RouteInfo) (r : Route) (n : Nat) :
    graphMem (addRoute acc r).1 n =
      (graphMem acc.1 n || decide (n = r.from_station_id)
        || decide (n = r.to_station_id)) := by
  unfold addRoute
  simp only [gMem_append, gMem_ensure]

lemma isArc_addRoute {acc : Graph × RouteInfo} {r : Route} {n : Nat}
    {rec : Adj} :
    isArc (addRoute acc r).1 n rec ↔
      isArc acc.1 n rec
      ∨ (n = r.from_station_id
          ∧ rec = (r.to_station_id, routeDistance r, routeDuration r))
      ∨ (n = r.to_station_id
          ∧ rec = (r.from_station_id, routeDistance r, routeDuration r)) := by
  unfold addRoute
  simp only [isArc_append, isArc_ensure, gMem_append, gMem_ensure]
  constructor
  · intro h
    rcases h with (h | ⟨h1, _, h3⟩) | ⟨h1, _, h3⟩
    · exact Or.inl h
    · exact Or.inr (Or.inl ⟨h1, h3⟩)
    · exact Or.inr (Or.inr ⟨h1, h3⟩)
  · intro h
    rcases h with h | ⟨h1, h3⟩ | ⟨h1, h3⟩
    · exact Or.inl (Or.inl h)
    · refine Or.inl (Or.inr ⟨h1, ?_, h3⟩)
      simp
    · refine Or.inr ⟨h1, ?_, h3⟩
      simp

lemma isArc_addRoute_mono {acc : Graph × RouteInfo} {r : Route} {n : Nat}
    {rec : Adj} (h : isArc acc.1 n rec) :
    isArc (addRoute acc r).1 n rec :=
  isArc_addRoute.mpr (Or.inl h)

lemma gMem_addRoute_mono {acc : Graph × RouteInfo} {r : Route} {n : Nat}
    (h : graphMem acc.1 n = true) :
    graphMem (addRoute acc r).1 n = true := by
  rw [gMem_addRoute, h]
  rfl

lemma WFGraph_addRoute {acc : Graph × RouteInfo} {r : Route}
    (h : WFGraph acc.1) : WFGraph (addRoute acc r).1 := by
  intro k adj hfind a ha
  have harc : isArc (addRoute acc r).1 k a := ⟨adj, hfind, ha⟩
  rcases isArc_addRoute.mp harc with h0 | ⟨_, h3⟩ | ⟨_, h3⟩
  · rcases h0 with ⟨adj0, hf0, ha0⟩
    exact gMem_addRoute_mono (h k adj0 hf0 a ha0)
  · rw [gMem_addRoute, h3]
    simp
  · rw [gMem_addRoute, h3]
    simp

lemma foldl_arc_src {routes : List Route} {acc : Graph × RouteInfo}
    {n : Nat} {rec : Adj}
    (h : isArc (routes.foldl addRoute acc).1 n rec) :
    isArc acc.1 n rec ∨ ∃ r ∈ routes,
      (n = r.from_station_id
        ∧ rec = (r.to_station_id, routeDistance r, routeDuration r))
      ∨ (n = r.to_station_id
        ∧ rec = (r.from_station_id, routeDistance r, routeDuration r)) := by
  induction routes generalizing acc with
  | nil => exact Or.inl h
  | cons r rs ih =>
    rw [List.foldl_cons] at h
    rcases ih h with h0 | ⟨r0, hr0, hcase⟩
    · rcases isArc_addRoute.mp h0 with h1 | h1 | h1
      · exact Or.inl h1
      · exact Or.inr ⟨r, List.mem_cons_self r rs, Or.inl h1⟩
      · exact Or.inr ⟨r, List.mem_cons_self r rs, Or.inr h1⟩
    · exact Or.inr ⟨r0, List.mem_cons_of_mem r hr0, hcase⟩

lemma foldl_arc_mono {routes : List Route} {acc : Graph × RouteInfo}
    {n : Nat} {rec : Adj} (h : isArc acc.1 n rec) :
    isArc (routes.foldl addRoute acc).1 n rec := by
  induction routes generalizing acc with
  | nil => exact h
  | cons r rs ih => exact ih (isArc_addRoute_mono h)

lemma foldl_arc_fwd {routes : List Route} {acc : Graph × RouteInfo}
    {r : Route} (h : r ∈ routes) :
    isArc (routes.foldl addRoute acc).1 r.from_station_id
      (r.to_station_id, routeDistance r, routeDuration r) := by
  induction routes generalizing acc with
  | nil => cases h
  | cons r0 rs ih =>
    rcases List.mem_cons.mp h with h0 | h0
    · subst h0
      have harc : isArc (addRoute acc r).1 r.from_station_id
          (r.to_station_id, routeDistance r, routeDuration r) :=
        isArc_addRoute.mpr (Or.inr (Or.inl ⟨rfl, rfl⟩))
      rw [List.foldl_cons]
      exact foldl_arc_mono harc
    · rw [List.foldl_cons]
      exact ih h0

lemma foldl_arc_bwd {routes : List Route} {acc : Graph × RouteInfo}
    {r : Route} (h : r ∈ routes) :
    isArc (routes.foldl addRoute acc).1 r.to_station_id
      (r.from_station_id, routeDistance r, routeDuration r) := by
  induction routes generalizing acc with
  | nil => cases h
  | cons r0 rs ih =>
    rcases List.mem_cons.mp h with h0 | h0
    · subst h0
      have harc : isArc (addRoute acc r).1 r.to_station_id
          (r.from_station_id, routeDistance r, routeDuration r) :=
        isArc_addRoute.mpr (Or.inr (Or.inr ⟨rfl, rfl⟩))
      rw [List.foldl_cons]
      exact foldl_arc_mono harc
    · rw [List.foldl_cons]
      exact ih h0

lemma WFGraph_foldl {routes : List Route} {acc : Graph × RouteInfo}
    (h : WFGraph acc.1) : WFGraph (routes.foldl addRoute acc).1 := by
  induction routes generalizing acc with
  | nil => exact h
  | cons r rs ih => exact ih (WFGraph_addRoute h)

lemma WFGraph_nil : WFGraph ([] : Graph) := by
  intro k adj hfind
  simp [graphFind, List.find?] at hfind

/-- The adjacency dict built by calculate_distance_and_time is well-formed:
every neighbor named in an adjacency list is itself a key of the dict. -/
lemma buildGraph_WF (routes : List Route) : WFGraph (buildGraph routes).1 :=
  WFGraph_foldl WFGraph_nil

/-- Every arc of the built graph takes its weight and duration from one of the
routes, in one of the two directions. -/
lemma buildGraph_arc_src {routes : List Route} {n : Nat} {rec : Adj}
    (h : isArc (buildGraph routes).1 n rec) :
    ∃ r ∈ routes,
      (n = r.from_station_id
        ∧ rec = (r.to_station_id, routeDistance r, routeDuration r))
      ∨ (n = r.to_station_id
        ∧ rec = (r.from_station_id, routeDistance r, routeDuration r)) := by
  rcases foldl_arc_src h with h0 | h0
  · rcases h0 with ⟨adj, hfind, _⟩
    simp [graphFind, List.find?] at hfind
  · exact h0

/-- If every effective edge weight of the routes is nonnegative, the built
graph has nonnegative weights. -/
lemma buildGraph_nonneg {routes : List Route}
    (h : ∀ r ∈ routes, 0 ≤ routeDistance r) :
    NonnegG (buildGraph routes).1 := by
  intro a b w hstep
  rcases hstep with ⟨adj, t, hfind, hmem⟩
  rcases buildGraph_arc_src ⟨adj, hfind, hmem⟩ with ⟨r, hr, hc⟩
  rcases hc with ⟨_, h3⟩ | ⟨_, h3⟩ <;>
    · rcases Prod.mk.injEq .. ▸ h3 with ⟨_, h5⟩
      rcases Prod.mk.injEq .. ▸ h5 with ⟨h6, _⟩
      rw [h6]
      exact h r hr

lemma scenario_fsp : find_shortest_path gScen 1 3 = some [1, 2, 3] := by
  rw [find_shortest_path,
    if_pos (show (graphMem gScen 1 && graphMem gScen 3) = true from by decide),
    show dMeasure gScen [(0, 0, 1, [1])] [] = 15 + 1 from by decide,
    dijkstraLoop]
  norm_num [findMin, entryLt, entryKey, Prod.Lex.lt_iff, gScen,
    graphFind, List.find?, List.erase, List.filter]
  rw [show (15 : Nat) = 14 + 1 from rfl, dijkstraLoop]
  norm_num [findMin, entryLt, entryKey, Prod.Lex.lt_iff, gScen,
    graphFind, List.find?, List.erase, List.filter]
  rw [show (14 : Nat) = 13 + 1 from rfl, dijkstraLoop]
  norm_num [findMin, entryLt, entryKey, Prod.Lex.lt_iff, gScen,
    graphFind, List.find?, List.erase, List.filter]

lemma triangle_fsp : find_shortest_path gTri 1 3 = some [1, 2, 3] := by
  rw [find_shortest_path,
    if_pos (show (graphMem gTri 1 && graphMem gTri 3) = true from by decide),
    show dMeasure gTri [(0, 0, 1, [1])] [] = 21 + 1 from by decide,
    dijkstraLoop]
  norm_num [findMin, entryLt, entryKey, Prod.Lex.lt_iff, gTri,
    graphFind, List.find?, List.erase, List.filter]
  rw [show (21 : Nat) = 20 + 1 from rfl, dijkstraLoop]
  norm_num [findMin, entryLt, entryKey, Prod.Lex.lt_iff, gTri,
    graphFind, List.find?, List.erase, List.filter]
  rw [show (20 : Nat) = 19 + 1 from rfl, dijkstraLoop]
  norm_num [findMin, entryLt, entryKey, Prod.Lex.lt_iff, gTri,
    graphFind, List.find?, List.erase, List.filter]

lemma scenario_calc_none : calculate_distance_and_time dbScenario 1 3 = none := by
  have hfsp : find_shortest_path (buildGraph (activeRoutes dbScenario)).1 1 3
      = some [1, 2, 3] := by
    rw [show (buildGraph (activeRoutes dbScenario)).1 = gScen from by decide]
    exact scenario_fsp
  unfold calculate_distance_and_time
  simp only [hfsp]
  rfl

lemma triangle_calc_none : calculate_distance_and_time dbTriangle 1 3 = none := by
  have hfsp : find_shortest_path (buildGraph (activeRoutes dbTriangle)).1 1 3
      = some [1, 2, 3] := by
    rw [show (buildGraph (activeRoutes dbTriangle)).1 = gTri from by decide]
    exact triangle_fsp
  unfold calculate_distance_and_time
  simp only [hfsp]
  rfl

lemma fsp_pair {A B : Nat} {d : ℚ} {t : ℤ} (hAB : A ≠ B) :
    find_shortest_path [(A, [(B, d, t)]), (B, [(A, d, t)])] A B
      = some [A, B] := by
  have hBA : B ≠ A := Ne.symm hAB
  rw [find_shortest_path,
    if_pos (show (graphMem [(A, [(B, d, t)]), (B, [(A, d, t)])] A
        && graphMem [(A, [(B, d, t)]), (B, [(A, d, t)])] B) = true from by
      simp [graphMem, graphFind, List.find?, hAB]),
    show dMeasure [(A, [(B, d, t)]), (B, [(A, d, t)])] [(0, 0, A, [A])] []
        = 6 + 1 from by
      simp [dMeasure, graphKeys, graphEdgeCount, List.filter],
    dijkstraLoop]
  norm_num [findMin, entryLt, entryKey, graphFind, List.find?, List.erase,
    List.filter, hAB, hBA]
  rw [show (6 : Nat) = 5 + 1 from rfl, dijkstraLoop]
  norm_num [findMin, entryLt, entryKey, graphFind, List.find?, List.erase,
    List.filter, hAB, hBA]

lemma fsp_pair_rev {A B : Nat} {d : ℚ} {t : ℤ} (hAB : A ≠ B) :
    find_shortest_path [(A, [(B, d, t)]), (B, [(A, d, t)])] B A
      = some [B, A] := by
  have hBA : B ≠ A := Ne.symm hAB
  rw [find_shortest_path,
    if_pos (show (graphMem [(A, [(B, d, t)]), (B, [(A, d, t)])] B
        && graphMem [(A, [(B, d, t)]), (B, [(A, d, t)])] A) = true from by
      simp [graphMem, graphFind, List.find?, hAB]),
    show dMeasure [(A, [(B, d, t)]), (B, [(A, d, t)])] [(0, 0, B, [B])] []
        = 6 + 1 from by
      simp [dMeasure, graphKeys, graphEdgeCount, List.filter],
    dijkstraLoop]
  norm_num [findMin, entryLt, entryKey, graphFind, List.find?, List.erase,
    List.filter, hAB, hBA]
  rw [show (6 : Nat) = 5 + 1 from rfl, dijkstraLoop]
  norm_num [findMin, entryLt, entryKey, graphFind, List.find?, List.erase,
    List.filter, hAB, hBA]

lemma buildGraph_single {r : Route}
    (hAB : r.from_station_id ≠ r.to_station_id) :
    buildGraph [r] =
      ([(r.from_station_id,
          [(r.to_station_id, routeDistance r, routeDuration r)]),
        (r.to_station_id,
          [(r.from_station_id, routeDistance r, routeDuration r)])],
       [((r.from_station_id, r.to_station_id), r),
        ((r.to_station_id, r.from_station_id), r)]) := by
  have hBA := Ne.symm hAB
  simp [buildGraph, addRoute, graphEnsure, graphMem, graphFind, List.find?,
    graphAppendAdj, hAB, hBA]

lemma calc_pair_fwd {db : DB} {r : Route} {sa sb : Station}
    (hAB : r.from_station_id ≠ r.to_station_id)
    (hsa : lookupStation db r.from_station_id = some sa)
    (hsb : lookupStation db r.to_station_id = some sb)
    (hact : activeRoutes db = [r]) :
    calculate_distance_and_time db r.from_station_id r.to_station_id =
      some { from_station_id := r.from_station_id
             to_station_id := r.to_station_id
             from_station_name := sa.name
             to_station_name := sb.name
             total_distance_km := round2 (routeDistance r)
             total_duration_minutes := routeDuration r
             route_segments :=
               [{ from_station_id := r.from_station_id
                  to_station_id := r.to_station_id
                  from_station_name := sa.name
                  to_station_name := sb.name
                  line_name := r.line_name.getD "Unknown Line"
                  distance_km := routeDistance r
                  duration_minutes := routeDuration r }]
             success := true
             message := routeFoundMsg 1 } := by
  have hBA := Ne.symm hAB
  unfold calculate_distance_and_time
  rw [hsa, hsb]
  simp [hact, buildGraph_single hAB, fsp_pair hAB, pathPairs, segsBuild,
    riFind, stationsDict, List.filter, hsa, hsb, hAB, hBA, List.getLast?,
    routeFoundMsg]

lemma calc_pair_bwd {db : DB} {r : Route} {sa sb : Station}
    (hAB : r.from_station_id ≠ r.to_station_id)
    (hsa : lookupStation db r.from_station_id = some sa)
    (hsb : lookupStation db r.to_station_id = some sb)
    (hact : activeRoutes db = [r]) :
    calculate_distance_and_time db r.to_station_id r.from_station_id =
      some { from_station_id := r.to_station_id
             to_station_id := r.from_station_id
             from_station_name := sb.name
             to_station_name := sa.name
             total_distance_km := round2 (routeDistance r)
             total_duration_minutes := routeDuration r
             route_segments :=
               [{ from_station_id := r.to_station_id
                  to_station_id := r.from_station_id
                  from_station_name := sb.name
                  to_station_name := sa.name
                  line_name := r.line_name.getD "Unknown Line"
                  distance_km := routeDistance r
                  duration_minutes := routeDuration r }]
             success := true
             message := routeFoundMsg 1 } := by
  have hBA := Ne.symm hAB
  unfold calculate_distance_and_time
  rw [hsb, hsa]
  simp [hact, buildGraph_single hAB, fsp_pair_rev hAB, pathPairs, segsBuild,
    riFind, stationsDict, List.filter, hsa, hsb, hAB, hBA, List.getLast?,
    routeFoundMsg]

/-- C5: for every station id X that resolves, calculate_distance_and_time X X
returns success with zero route segments, total distance 0 and total
duration 0, for every database — in particular with no routes at all, since
the same-station branch precedes the empty-route-set check. -/
theorem C5_same_station (db : DB) (X : Nat) (s : Station)
    (h : lookupStation db X = some s) :
    ∃ resp, calculate_distance_and_time db X X = some resp
      ∧ resp.success = true ∧ resp.route_segments = []
      ∧ resp.total_distance_km = 0 ∧ resp.total_duration_minutes = 0
      ∧ resp.message = sameStationMsg := by
  refine ⟨mkSimpleResponse X X s.name s.name true sameStationMsg, ?_, rfl,
    rfl, rfl, rfl, rfl⟩
  unfold calculate_distance_and_time
  rw [h]
  simp

/-- C5 witness: the lone-station database with no routes at all answers the
same-station query 7 -> 7 with a zero-totals success. -/
theorem C5_same_station_witness :
    ∃ resp, calculate_distance_and_time dbLone 7 7 = some resp
      ∧ resp.success = true ∧ resp.route_segments = []
      ∧ resp.total_distance_km = 0 ∧ resp.total_duration_minutes = 0
      ∧ resp.message = sameStationMsg :=
  C5_same_station dbLone 7 ⟨7, "Bang Wa"⟩ (by decide)

/-- C6: when the active route set is exactly one directed edge from A to B
with A and B distinct and resolvable, both query directions succeed and
report the identical total distance, the rounded weight of that edge. -/
theorem C6_bidirectional_symmetry (db : DB) (r : Route) (sa sb : Station)
    (hAB : r.from_station_id ≠ r.to_station_id)
    (hsa : lookupStation db r.from_station_id = some sa)
    (hsb : lookupStation db r.to_station_id = some sb)
    (hact : activeRoutes db = [r]) :
    ∃ ra rb : DistanceCalculationResponse,
      calculate_distance_and_time db r.from_station_id r.to_station_id
        = some ra
      ∧ calculate_distance_and_time db r.to_station_id r.from_station_id
        = some rb
      ∧ ra.success = true ∧ rb.success = true
      ∧ ra.total_distance_km = rb.total_distance_km
      ∧ ra.total_distance_km = round2 (routeDistance r) :=
  ⟨_, _, calc_pair_fwd hAB hsa hsb hact, calc_pair_bwd hAB hsa hsb hact,
    rfl, rfl, rfl, rfl⟩

/-- C6 witness: the two-station database storing only the directed edge
1 -> 2 answers both directions with the same total distance. -/
theorem C6_bidirectional_symmetry_witness :
    ∃ ra rb : DistanceCalculationResponse,
      calculate_distance_and_time dbPair 1 2 = some ra
      ∧ calculate_distance_and_time dbPair 2 1 = some rb
      ∧ ra.success = true ∧ rb.success = true
      ∧ ra.total_distance_km = rb.total_distance_km
      ∧ ra.total_distance_km = round2 (routeDistance rPair) :=
  C6_bidirectional_symmetry dbPair rPair ⟨1, "Alpha"⟩ ⟨2, "Beta"⟩
    (by decide) (by decide) (by decide) (by decide)

lemma scenario_walk : Walk gScen 1 [1, 2, 3] 3 8 := by
  have h1 : isStep gScen 1 2 5 := ⟨[(2, 5, 10)], 10, rfl, List.Mem.head _⟩
  have h2 : isStep gScen 2 3 3 :=
    ⟨[(1, 5, 10), (3, 3, 6)], 6, rfl, List.Mem.tail _ (List.Mem.head _)⟩
  have hw := Walk.snoc (Walk.snoc Walk.nil h1) h2
  norm_num at hw
  exact hw

lemma tri_walk10 : Walk gTri 1 [1, 2, 3] 3 10 := by
  have h1 : isStep gTri 1 2 5 :=
    ⟨[(2, 5, 10), (3, 20, 10)], 10, rfl, List.Mem.head _⟩
  have h2 : isStep gTri 2 3 5 :=
    ⟨[(1, 5, 10), (3, 5, 10)], 10, rfl, List.Mem.tail _ (List.Mem.head _)⟩
  have hw := Walk.snoc (Walk.snoc Walk.nil h1) h2
  norm_num at hw
  exact hw

lemma tri_walk20 : Walk gTri 1 [1, 3] 3 20 := by
  have h1 : isStep gTri 1 3 20 :=
    ⟨[(2, 5, 10), (3, 20, 10)], 10, rfl, List.Mem.tail _ (List.Mem.head _)⟩
  have hw := Walk.snoc Walk.nil h1
  norm_num at hw
  exact hw

lemma tri_nonneg : NonnegG gTri := by
  have h : NonnegG (buildGraph (activeRoutes dbTriangle)).1 :=
    buildGraph_nonneg (by decide)
  rwa [show (buildGraph (activeRoutes dbTriangle)).1 = gTri from by decide]
    at h

lemma tri_cost_123 {c : ℚ} (hw : Walk gTri 1 [1, 2, 3] 3 c) : c = 10 := by
  rcases walk_cons_view hw with ⟨hp, _, _⟩ | ⟨y, w, q, c2, hstep, hw2, hp, hc⟩
  · simp at hp
  · have hp2 : y = 2 ∧ q = [3] := by
      have := hp
      simp only [List.cons.injEq] at this
      exact ⟨this.2.1.symm, this.2.2.symm⟩
    obtain ⟨hy, hq⟩ := hp2
    subst hy
    subst hq
    rcases hstep with ⟨adj, t, hfind, hmem⟩
    have hadj : adj = [(2, 5, 10), (3, 20, 10)] := by
      have h0 : graphFind gTri 1 = some [(2, 5, 10), (3, 20, 10)] := rfl
      rw [h0] at hfind
      exact (Option.some.injEq .. ▸ hfind).symm
    subst hadj
    have hw5 : w = 5 := by
      simp only [List.mem_cons, List.not_mem_nil, or_false,
        Prod.mk.injEq] at hmem
      rcases hmem with ⟨_, h5, _⟩ | ⟨h23, _⟩
      · exact h5
      · exact absurd h23 (by decide)
    rcases walk_cons_view hw2 with ⟨hp3, _, _⟩ |
      ⟨y2, w2, q2, c3, hstep2, hw3, hp3, hc3⟩
    · simp at hp3
    · have hp4 : y2 = 3 ∧ q2 = [] := by
        simp only [List.cons.injEq] at hp3
        exact ⟨hp3.2.1.symm, hp3.2.2.symm⟩
      obtain ⟨hy2, hq2⟩ := hp4
      subst hy2
      subst hq2
      rcases hstep2 with ⟨adj2, t2, hfind2, hmem2⟩
      have hadj2 : adj2 = [(1, 5, 10), (3, 5, 10)] := by
        have h0 : graphFind gTri 2 = some [(1, 5, 10), (3, 5, 10)] := rfl
        rw [h0] at hfind2
        exact (Option.some.injEq .. ▸ hfind2).symm
      subst hadj2
      have hw25 : w2 = 5 := by
        simp only [List.mem_cons, List.not_mem_nil, or_false,
          Prod.mk.injEq] at hmem2
        rcases hmem2 with ⟨h31, _⟩ | ⟨_, h5, _⟩
        · exact absurd h31 (by decide)
        · exact h5
      rcases walk_singleton hw3 with ⟨_, _, hc0⟩
      rw [hc, hc3, hw5, hw25, hc0]
      norm_num

/-- C8: on the scenario fixture the inner Dijkstra routine finds [1, 2, 3],
whose walk cost is 8, and the per-hop annotations for that path carry the
expected segment data summing to distance 8 and duration 16 (rounding to 8);
but calculate_distance_and_time itself raises an uncaught KeyError on the
interior station 2 (the stations dict holds only the two endpoints), so the
claimed successful response is never produced. -/
theorem C8_scenario_totals_crash :
    (buildGraph (activeRoutes dbScenario)).1 = gScen
    ∧ find_shortest_path gScen 1 3 = some [1, 2, 3]
    ∧ Walk gScen 1 [1, 2, 3] 3 8
    ∧ (∃ segs,
        segsBuild (fun i => lookupStation dbScenario i)
          (buildGraph (activeRoutes dbScenario)).2 (pathPairs [1, 2, 3])
          = some segs
        ∧ segs.length = 2
        ∧ (segs.map (fun s => s.distance_km)).sum = 8
        ∧ (segs.map (fun s => s.duration_minutes)).sum = 16
        ∧ round2 ((segs.map (fun s => s.distance_km)).sum) = 8)
    ∧ calculate_distance_and_time dbScenario 1 3 = none := by
  refine ⟨by decide, scenario_fsp, scenario_walk,
    ⟨[⟨1, 2, "Mo Chit", "Siam", "Sukhumvit", 5, 10⟩,
      ⟨2, 3, "Siam", "Asok", "Sukhumvit", 3, 6⟩], by decide, rfl, ?_, ?_, ?_⟩,
    scenario_calc_none⟩
  · norm_num
  · norm_num
  · norm_num [round2]

/-- C1: on the triangle fixture the inner Dijkstra routine does return the
two-hop path [1, 2, 3]; every walk of that path costs exactly 10, this is
minimal over all walks from 1 to 3, and the direct edge gives the walk
[1, 3] of cost 20.  The public calculate_distance_and_time, however, raises
an uncaught KeyError (modelled none) on this very query instead of returning
the optimal route, so the claimed end-to-end behavior fails. -/
theorem C1_optimal_path_but_crash :
    (buildGraph (activeRoutes dbTriangle)).1 = gTri
    ∧ find_shortest_path gTri 1 3 = some [1, 2, 3]
    ∧ Walk gTri 1 [1, 2, 3] 3 10
    ∧ (∀ q c, Walk gTri 1 q 3 c → 10 ≤ c)
    ∧ Walk gTri 1 [1, 3] 3 20
    ∧ calculate_distance_and_time dbTriangle 1 3 = none := by
  refine ⟨by decide, triangle_fsp, tri_walk10, ?_, tri_walk20,
    triangle_calc_none⟩
  rcases fsp_opt tri_nonneg triangle_fsp with ⟨c, hwc, hmin⟩
  have hc : c = 10 := tri_cost_123 hwc
  intro q c2 hw2
  have := hmin q c2 hw2
  rw [hc] at this
  exact this

/-- C4: the three typed failure branches do fire exactly as described — an
unresolved from-station or to-station yields the matching not-found message,
an empty active-route set yields the no-routes message, and an unreachable
destination yields the no-path message — but the final clause of the claim
(failures are never exceptions) is false: on a resolvable three-station query
whose shortest path passes through an interior station, the assembly loop
raises an uncaught KeyError (modelled none) instead of any typed result. -/
theorem C4_error_taxonomy_but_crash :
    (∀ db f t, lookupStation db f = none →
      ∃ resp, calculate_distance_and_time db f t = some resp
        ∧ resp.success = false ∧ resp.message = fromNotFoundMsg f)
    ∧ (∀ db f t sf, lookupStation db f = some sf →
        lookupStation db t = none →
      ∃ resp, calculate_distance_and_time db f t = some resp
        ∧ resp.success = false ∧ resp.message = toNotFoundMsg t)
    ∧ (∀ db f t sf st, f ≠ t → lookupStation db f = some sf →
        lookupStation db t = some st → activeRoutes db = [] →
      calculate_distance_and_time db f t
        = some (mkSimpleResponse f t sf.name st.name false noRoutesMsg))
    ∧ (∀ db f t sf st, f ≠ t → lookupStation db f = some sf →
        lookupStation db t = some st → activeRoutes db ≠ [] →
        (¬ ∃ q c, Walk (buildGraph (activeRoutes db)).1 f q t c) →
      calculate_distance_and_time db f t
        = some (mkSimpleResponse f t sf.name st.name false noPathMsg))
    ∧ lookupStation dbScenario 1 = some ⟨1, "Mo Chit"⟩
    ∧ lookupStation dbScenario 3 = some ⟨3, "Asok"⟩
    ∧ activeRoutes dbScenario ≠ []
    ∧ Walk (buildGraph (activeRoutes dbScenario)).1 1 [1, 2, 3] 3 8
    ∧ calculate_distance_and_time dbScenario 1 3 = none := by
  refine ⟨?_, ?_, ?_, ?_, by decide, by decide, by decide, ?_,
    scenario_calc_none⟩
  · intro db f t h
    exact ⟨_, by unfold calculate_distance_and_time; rw [h], rfl, rfl⟩
  · intro db f t sf hf ht
    exact ⟨_, by unfold calculate_distance_and_time; rw [hf, ht], rfl, rfl⟩
  · intro db f t sf st hft hf ht hact
    unfold calculate_distance_and_time
    rw [hf, ht]
    simp [hft, hact]
  · intro db f t sf st hft hf ht hne hnw
    have hWF := buildGraph_WF (activeRoutes db)
    have hfsp : find_shortest_path (buildGraph (activeRoutes db)).1 f t
        = none := (fsp_none_iff hWF hft).mpr hnw
    unfold calculate_distance_and_time
    rw [hf, ht]
    simp [hft, hfsp, List.isEmpty_iff, hne]
  · exact (show (buildGraph (activeRoutes dbScenario)).1 = gScen from
      by decide) ▸ scenario_walk

lemma routeDistance_ne_zero (r : Route) : routeDistance r ≠ 0 := by
  unfold routeDistance
  cases r.distance_km with
  | none => norm_num
  | some d =>
    show (if d = 0 then (1 : ℚ) else d) ≠ 0
    split
    · norm_num
    · assumption

lemma routeDuration_ne_zero (r : Route) : routeDuration r ≠ 0 := by
  unfold routeDuration
  cases r.duration_minutes with
  | none => norm_num
  | some d =>
    show (if d = 0 then (10 : ℤ) else d) ≠ 0
    split
    · norm_num
    · assumption

lemma buildGraph_step_ne_zero {routes : List Route} {a b : Nat} {w : ℚ}
    (h : isStep (buildGraph routes).1 a b w) : w ≠ 0 := by
  rcases h with ⟨adj, t, hfind, hmem⟩
  rcases buildGraph_arc_src ⟨adj, hfind, hmem⟩ with ⟨r, _, hc⟩
  rcases hc with ⟨_, h3⟩ | ⟨_, h3⟩ <;>
    · rcases Prod.mk.injEq .. ▸ h3 with ⟨_, h5⟩
      rcases Prod.mk.injEq .. ▸ h5 with ⟨h6, _⟩
      rw [h6]
      exact routeDistance_ne_zero r

lemma segsBuild_fields {smap : Nat → Option Station} {ri : RouteInfo} :
    ∀ {l : List (Nat × Nat)} {segs : List RouteSegmentInfo},
      segsBuild smap ri l = some segs →
      ∀ s ∈ segs, ∃ r : Route,
        s.distance_km = routeDistance r
        ∧ s.duration_minutes = routeDuration r := by
  intro l
  induction l with
  | nil =>
    intro segs h s hs
    simp only [segsBuild, Option.some.injEq] at h
    subst h
    cases hs
  | cons p rest ih =>
    intro segs h s hs
    obtain ⟨a, b⟩ := p
    simp only [segsBuild] at h
    cases hri : riFind ri (a, b) with
    | none =>
      simp only [hri] at h
      exact ih h s hs
    | some r =>
      simp only [hri] at h
      cases hsa : smap a with
      | none =>
        cases hsb : smap b <;> simp only [hsa, hsb] at h <;>
          exact Option.noConfusion h
      | some sa =>
        cases hsb : smap b with
        | none =>
          simp only [hsa, hsb] at h
          exact Option.noConfusion h
        | some sb =>
          simp only [hsa, hsb] at h
          rcases Option.map_eq_some'.mp h with ⟨l0, hl0, hfl⟩
          subst hfl
          rcases List.mem_cons.mp hs with hhead | htail
          · subst hhead
            exact ⟨r, rfl, rfl⟩
          · exact ih hl0 s htail

/-- C10: the truthiness defaulting treats zero like missing — a NULL or zero
stored distance becomes weight 1 and a NULL or zero stored duration becomes
10 — so no adjacency record of the pathfinding graph built from any route
list carries weight 0, and every per-hop annotation a successful assembly
produces has nonzero distance and duration. -/
theorem C10_zero_as_missing_defaults :
    (∀ r : Route, r.distance_km = none ∨ r.distance_km = some 0 →
      routeDistance r = 1)
    ∧ (∀ r : Route, r.duration_minutes = none ∨ r.duration_minutes = some 0 →
      routeDuration r = 10)
    ∧ (∀ routes : List Route, ∀ a b w,
      isStep (buildGraph routes).1 a b w → w ≠ 0)
    ∧ (∀ smap ri l segs, segsBuild smap ri l = some segs →
      ∀ s ∈ segs, s.distance_km ≠ 0 ∧ s.duration_minutes ≠ 0) := by
  refine ⟨?_, ?_, ?_, ?_⟩
  · intro r h
    unfold routeDistance
    rcases h with h | h <;> rw [h] <;> simp
  · intro r h
    unfold routeDuration
    rcases h with h | h <;> rw [h] <;> simp
  · intro routes a b w h
    exact buildGraph_step_ne_zero h
  · intro smap ri l segs h s hs
    rcases segsBuild_fields h s hs with ⟨r, hd, ht⟩
    rw [hd, ht]
    exact ⟨routeDistance_ne_zero r, routeDuration_ne_zero r⟩
